import Mathlib

/-!
Verification of the temporal-evaluation and filtering core of the
"Sorties famille en Suisse" application (src/app.py), as a shallow
embedding in Lean 4.

The embedding models, faithfully to the Python source:
  * the JSON fragment the application reads and writes
    (`json.dumps(..., ensure_ascii=False)` / `json.loads`),
  * the weekly opening-hours evaluator (`parse_time_str`,
    `is_open_today_intervals`, `is_open_now`),
  * the event time-window evaluator (`within_open_now`,
    `datetime.fromisoformat`, timezone attachment),
  * the filter engine (`apply_place_filters`, `apply_event_filters`)
    over pandas-style records with possibly-missing cells,
  * the result ordering (`DataFrame.sort_values`), and
  * the hours-form serializer (`build_hours_input`).

Machine-level caveats of the embedding are stated in the doc comment of
each definition.
-/

set_option maxHeartbeats 1000000

namespace Sorties

/-- Left curly brace character, written numerically. -/
def lbrace : Char := Char.ofNat 123

/-- Right curly brace character, written numerically. -/
def rbrace : Char := Char.ofNat 125

/-- JSON values as handled by the application: `json.loads` results and
`json.dumps` inputs.  Numbers are modelled as integers only: no value the
application serializes contains a number, and the claims under study never
evaluate the code on floating-point JSON (a documented fragment
restriction of this embedding). -/
inductive Json where
  | null : Json
  | bool : Bool → Json
  | num : Int → Json
  | str : String → Json
  | arr : List Json → Json
  | obj : List (String × Json) → Json
deriving Repr

/-- Hexadecimal digit character (lowercase, as emitted by Python `json`). -/
def hexDigit (n : Nat) : Char :=
  if n < 10 then Char.ofNat (48 + n) else Char.ofNat (87 + n)

/-- Escaping of a single character inside a JSON string literal, exactly as
Python `json.dumps(..., ensure_ascii=False)` does: the two mandatory
escapes, the five short control escapes, `\u00xx` for the remaining
control characters, and every other character verbatim. -/
def escChar (c : Char) : List Char :=
  if c = '"' then ['\\', '"']
  else if c = '\\' then ['\\', '\\']
  else if c = Char.ofNat 10 then ['\\', 'n']
  else if c = Char.ofNat 9 then ['\\', 't']
  else if c = Char.ofNat 13 then ['\\', 'r']
  else if c = Char.ofNat 8 then ['\\', 'b']
  else if c = Char.ofNat 12 then ['\\', 'f']
  else if c.toNat < 32 then
    ['\\', 'u', '0', '0', hexDigit (c.toNat / 16), hexDigit (c.toNat % 16)]
  else [c]

/-- Serialization of a JSON string literal, quotes included. -/
def serStr (s : String) : List Char :=
  '"' :: (s.data.map escChar).flatten ++ ['"']

mutual

/-- Serializer for `Json`, producing exactly the bytes of Python
`json.dumps(v, ensure_ascii=False)` with the default separators
`", "` and `": "` (the only way the application ever serializes). -/
def ser : Json → List Char
  | .null => "null".data
  | .bool true => "true".data
  | .bool false => "false".data
  | .num n => (toString n).data
  | .str s => serStr s
  | .arr [] => ['[', ']']
  | .arr (v :: vs) => '[' :: (ser v ++ serItemsTail vs)
  | .obj [] => [lbrace, rbrace]
  | .obj ((k, v) :: kvs) =>
      lbrace :: (serStr k ++ ':' :: ' ' :: ser v ++ serMembersTail kvs)

/-- Tail of a nonempty serialized array: `", v"*` then `"]"`. -/
def serItemsTail : List Json → List Char
  | [] => [']']
  | v :: vs => ',' :: ' ' :: (ser v ++ serItemsTail vs)

/-- Tail of a nonempty serialized object: `", \"k\": v"*` then the closing
brace. -/
def serMembersTail : List (String × Json) → List Char
  | [] => [rbrace]
  | (k, v) :: kvs => ',' :: ' ' :: (serStr k ++ ':' :: ' ' :: ser v ++ serMembersTail kvs)

end

/-- The application-side serializer: `json.dumps(v, ensure_ascii=False)`. -/
def dumps (v : Json) : String := String.mk (ser v)

/-- JSON insignificant whitespace, as accepted by Python `json.loads`. -/
def isJsonWs (c : Char) : Bool :=
  c == ' ' || c == Char.ofNat 9 || c == Char.ofNat 10 || c == Char.ofNat 13

/-- Drop leading JSON whitespace. -/
def skipWs (cs : List Char) : List Char := cs.dropWhile isJsonWs

/-- Value of one hexadecimal digit character, if any. -/
def hexVal? (c : Char) : Option Nat :=
  if '0' ≤ c ∧ c ≤ '9' then some (c.toNat - 48)
  else if 'a' ≤ c ∧ c ≤ 'f' then some (c.toNat - 87)
  else if 'A' ≤ c ∧ c ≤ 'F' then some (c.toNat - 55)
  else none

/-- Resolution of a one-character JSON escape. -/
def unescape? (c : Char) : Option Char :=
  if c = '"' then some '"'
  else if c = '\\' then some '\\'
  else if c = '/' then some '/'
  else if c = 'n' then some (Char.ofNat 10)
  else if c = 't' then some (Char.ofNat 9)
  else if c = 'r' then some (Char.ofNat 13)
  else if c = 'b' then some (Char.ofNat 8)
  else if c = 'f' then some (Char.ofNat 12)
  else none

/-- Parser for the contents of a JSON string literal after the opening
quote, returning the decoded characters and the input after the closing
quote.  Raw control characters are rejected, as in Python `json.loads`.
`\uXXXX` escapes denoting surrogate halves are out of the modelled
fragment and rejected. -/
def parseStrChars : List Char → Option (List Char × List Char)
  | [] => none
  | c :: rest =>
    if c = '"' then some ([], rest)
    else if c = '\\' then
      match rest with
      | [] => none
      | e :: rest2 =>
        if e = 'u' then
          match rest2 with
          | a :: b :: c2 :: d :: rest3 =>
            match hexVal? a, hexVal? b, hexVal? c2, hexVal? d with
            | some ha, some hb, some hc, some hd =>
              let n := ((ha * 16 + hb) * 16 + hc) * 16 + hd
              if n < 55296 then
                (parseStrChars rest3).map (fun p => (Char.ofNat n :: p.1, p.2))
              else none
            | _, _, _, _ => none
          | _ => none
        else
          match unescape? e with
          | some d => (parseStrChars rest2).map (fun p => (d :: p.1, p.2))
          | none => none
    else if c.toNat < 32 then none
    else (parseStrChars rest).map (fun p => (c :: p.1, p.2))

/-- Parser for a JSON string literal including the opening quote position:
to be called on the input just after the opening quote. -/
def parseStringRest (cs : List Char) : Option (String × List Char) :=
  (parseStrChars cs).map (fun p => (String.mk p.1, p.2))

/-- Maximal run of decimal digits with its value. -/
def takeDigits (cs : List Char) : List Char × List Char :=
  cs.span (fun c => c.isDigit)

/-- Numeric value of a digit run. -/
def digitsVal (ds : List Char) : Nat :=
  ds.foldl (fun a c => a * 10 + (c.toNat - 48)) 0

/-- Parser for a JSON integer literal.  Fragment restriction of the
embedding: fractional and exponent forms (floats) are rejected rather
than parsed, and leading-zero checks are omitted; no claim under study
evaluates the code on such inputs. -/
def parseNum (cs : List Char) : Option (Json × List Char) :=
  let signSplit : Bool × List Char := match cs with
    | '-' :: t => (true, t)
    | _ => (false, cs)
  let neg := signSplit.1
  match takeDigits signSplit.2 with
  | ([], _) => none
  | (ds, rest) =>
    match rest with
    | '.' :: _ => none
    | 'e' :: _ => none
    | 'E' :: _ => none
    | _ =>
      let v : Int := Int.ofNat (digitsVal ds)
      some (.num (if neg then -v else v), rest)

mutual

/-- Fuel-indexed recursive-descent parser for one JSON value, modelling
Python `json.loads`.  Returns the value and the unconsumed input.  Fuel
`n` suffices whenever `n` exceeds the length of the consumed input. -/
def parseVal : Nat → List Char → Option (Json × List Char)
  | 0, _ => none
  | Nat.succ n, cs =>
    match skipWs cs with
    | [] => none
    | c :: rest =>
      if c = lbrace then
        match skipWs rest with
        | c2 :: rest2 =>
          if c2 = rbrace then some (.obj [], rest2)
          else (parseMembers n (c2 :: rest2)).map (fun p => (.obj p.1, p.2))
        | [] => none
      else if c = '[' then
        match skipWs rest with
        | c2 :: rest2 =>
          if c2 = ']' then some (.arr [], rest2)
          else (parseItems n (c2 :: rest2)).map (fun p => (.arr p.1, p.2))
        | [] => none
      else if c = '"' then
        (parseStringRest rest).map (fun p => (.str p.1, p.2))
      else
        match c :: rest with
        | 't' :: 'r' :: 'u' :: 'e' :: rest' => some (.bool true, rest')
        | 'f' :: 'a' :: 'l' :: 's' :: 'e' :: rest' => some (.bool false, rest')
        | 'n' :: 'u' :: 'l' :: 'l' :: rest' => some (.null, rest')
        | cs' => parseNum cs'

/-- Parser for the members of a nonempty JSON object, up to and including
the closing brace. -/
def parseMembers : Nat → List Char → Option (List (String × Json) × List Char)
  | 0, _ => none
  | Nat.succ n, cs =>
    match skipWs cs with
    | '"' :: rest =>
      match parseStringRest rest with
      | some (k, r1) =>
        match skipWs r1 with
        | ':' :: r2 =>
          match parseVal n r2 with
          | some (v, r3) =>
            match skipWs r3 with
            | ',' :: r4 => (parseMembers n r4).map (fun p => ((k, v) :: p.1, p.2))
            | c :: r4 => if c = rbrace then some ([(k, v)], r4) else none
            | [] => none
          | none => none
        | _ => none
      | none => none
    | _ => none

/-- Parser for the items of a nonempty JSON array, up to and including the
closing bracket. -/
def parseItems : Nat → List Char → Option (List Json × List Char)
  | 0, _ => none
  | Nat.succ n, cs =>
    match parseVal n cs with
    | some (v, r1) =>
      match skipWs r1 with
      | ',' :: r2 => (parseItems n r2).map (fun p => (v :: p.1, p.2))
      | ']' :: r2 => some ([v], r2)
      | _ => none
    | none => none

end

/-- The application-side deserializer, modelling Python `json.loads s`:
parse one value and require only whitespace to remain.  `none` models the
raised `JSONDecodeError`.  Objects are kept as ordered member lists;
duplicate keys (which Python's `dict` would collapse) are outside the
modelled fragment, and member lookup below reads the last binding so that
lookups agree with Python even on duplicates. -/
def json_loads (s : String) : Option Json :=
  match parseVal (s.length + 1) s.data with
  | some (v, rest) => if (skipWs rest).isEmpty then some v else none
  | none => none

/-! ### Python dynamic semantics helpers -/

/-- Python truthiness of a decoded JSON value: `None`, `False`, `0`, the
empty string, the empty list and the empty dict are falsy, everything
else truthy. -/
def truthy : Json → Bool
  | .null => false
  | .bool b => b
  | .num n => n != 0
  | .str s => s != ""
  | .arr l => !l.isEmpty
  | .obj l => !l.isEmpty

/-- Model of Python `x.get(k, dflt)`: succeeds with the binding (last one,
as in a Python `dict`) or the default when `x` is a dict, and raises
`AttributeError` on any other value, exactly as the interpreter does. -/
def dict_get (j : Json) (k : String) (dflt : Json) : Except String Json :=
  match j with
  | .obj kvs => .ok ((((kvs.reverse).find? (fun kv => kv.1 == k)).map Prod.snd).getD dflt)
  | _ => .error "AttributeError"

/-- Model of Python iteration `for block in x`: a list yields its items, a
string its characters (as one-character strings), a dict its keys; `None`,
booleans and numbers raise `TypeError`. -/
def iter_elems (j : Json) : Except String (List Json) :=
  match j with
  | .arr l => .ok l
  | .str s => .ok (s.data.map (fun c => .str (String.mk [c])))
  | .obj kvs => .ok (kvs.map (fun kv => .str kv.1))
  | _ => .error "TypeError"

/-! ### Clock times and `parse_time_str` (src/app.py lines 112-119) -/

/-- Clock times are modelled as seconds from midnight.  Python `time`
objects compare lexicographically on (hour, minute, second), which is
exactly the linear order on `3600*h + 60*m + s`; `dt.time()` carries
seconds, while `parse_time_str` always produces zero seconds. -/
abbrev ClockTime := Nat

/-- Model of Python `int(s)` on the fragment of strings the time parser
meets: an optional sign followed by decimal digits.  (Python additionally
strips whitespace and allows inner underscores; no input under study uses
either, a documented fragment restriction.) -/
def pyInt? (s : String) : Option Int :=
  match s.data with
  | [] => none
  | '-' :: t =>
    if t ≠ [] ∧ t.all (fun c => c.isDigit) then some (-(Int.ofNat (digitsVal t))) else none
  | '+' :: t =>
    if t ≠ [] ∧ t.all (fun c => c.isDigit) then some (Int.ofNat (digitsVal t)) else none
  | l =>
    if l.all (fun c => c.isDigit) then some (Int.ofNat (digitsVal l)) else none

/-- Splitting on a single separator character, with Python `str.split`
semantics: `"" → [""]`, separators at the ends produce empty parts. -/
def splitOnChar (sep : Char) : List Char → List (List Char)
  | [] => [[]]
  | c :: rest =>
    let r := splitOnChar sep rest
    if c = sep then [] :: r
    else
      match r with
      | h :: t => (c :: h) :: t
      | [] => [[c]]

/-- Model of `parse_time_str` applied to an actual (non-missing) string:
empty strings fail the initial falsy guard; otherwise the string must
split on `:` into exactly two `int()`-parsable parts forming a valid
`time(h, m)` (else the raised `ValueError` is caught and `None`
returned). -/
def parse_time_str_s (s : String) : Option ClockTime :=
  if s = "" then none
  else
    match (splitOnChar ':' s.data).map String.mk with
    | [h, m] =>
      match pyInt? h, pyInt? m with
      | some hh, some mm =>
        if 0 ≤ hh ∧ hh ≤ 23 ∧ 0 ≤ mm ∧ mm ≤ 59 then
          some (hh.toNat * 3600 + mm.toNat * 60)
        else none
      | _, _ => none
    | _ => none

/-- Model of `parse_time_str` applied to a decoded JSON value, as the
schedule evaluator does with `block.get("start")` / `block.get("end")`:
falsy values fail the guard and give `None`; truthy non-strings reach
`s.split(":")`, whose `AttributeError` the `try` catches, giving `None`;
a multi-element list makes the unguarded `pd.isna(s)` test raise
`ValueError` (ambiguous array truth value).  `Json.null` models both an
absent key (Python `None` default) and a JSON `null` value, which behave
identically here. -/
def parse_time_j : Json → Except String (Option ClockTime)
  | .null => .ok none
  | .bool _ => .ok none
  | .num _ => .ok none
  | .str s => .ok (parse_time_str_s s)
  | .arr l => if l.length ≤ 1 then .ok none else .error "ValueError"
  | .obj _ => .ok none

/-! ### Schedule evaluator (src/app.py lines 124-150) -/

/-- The seven French weekday labels, Monday first, as in `WEEKDAYS_FR`. -/
def WEEKDAYS_FR : List String := ["Lun", "Mar", "Mer", "Jeu", "Ven", "Sam", "Dim"]

/-- Weekday label of a Python `weekday()` index (Monday = 0). -/
def weekday_fr : Fin 7 → String
  | 0 => "Lun"
  | 1 => "Mar"
  | 2 => "Mer"
  | 3 => "Jeu"
  | 4 => "Ven"
  | 5 => "Sam"
  | 6 => "Dim"

/-- Model of one pass of the interval loop body: look up `start` and `end`
in the block (raising `AttributeError` if the block is not a dict), parse
both, and keep the pair only when both parses succeed (every Python
`time` object is truthy). -/
def interval_of_block (b : Json) : Except String (Option (ClockTime × ClockTime)) :=
  match b with
  | .obj _ => do
    let sv ← dict_get b "start" .null
    let ev ← dict_get b "end" .null
    let s? ← parse_time_j sv
    let e? ← parse_time_j ev
    match s?, e? with
    | some s, some e => pure (some (s, e))
    | _, _ => pure none
  | _ => .error "AttributeError"

/-- Sequential traversal of the interval blocks of a day, as the `for`
loop of `is_open_today_intervals` performs it: the first raising block
aborts the loop, the others contribute their parse result in order. -/
def traverse_blocks : List Json → Except String (List (Option (ClockTime × ClockTime)))
  | [] => .ok []
  | b :: bs => do
    let x ← interval_of_block b
    let xs ← traverse_blocks bs
    pure (x :: xs)

/-- Model of `is_open_today_intervals(hours_json, dt)` with `dt` abstracted
into its Zurich-local weekday.  `none` models a missing cell (`None` or
pandas `NaN`, both caught by the falsy/`pd.isna` guard).  Only
`json.loads` is inside a `try`, so a decoding failure yields `[]`, but
attribute errors on decoded values of the wrong shape propagate
(modelled by `Except.error`). -/
def is_open_today_intervals (hours_json : Option String) (wd : Fin 7) :
    Except String (List (ClockTime × ClockTime)) :=
  match hours_json with
  | none => .ok []
  | some s =>
    if s = "" then .ok []
    else
      match json_loads s with
      | none => .ok []
      | some data => do
        let day_cfg ← dict_get data (weekday_fr wd) (.obj [])
        if truthy day_cfg = false then pure []
        else do
          let openv ← dict_get day_cfg "open" (.bool false)
          if truthy openv = false then pure []
          else do
            let iv ← dict_get day_cfg "intervals" (.arr [])
            let blocks ← iter_elems iv
            let parsed ← traverse_blocks blocks
            pure parsed.reduceOption

/-- Model of `is_open_now(hours_json)` with the ambient instant
`now_local()` abstracted into its Zurich-local weekday `wd` and
seconds-of-day clock time `t`: open when any interval of the resolved
day satisfies `start <= t <= end`. -/
def is_open_now (hours_json : Option String) (wd : Fin 7) (t : ClockTime) :
    Except String Bool := do
  let ivs ← is_open_today_intervals hours_json wd
  pure (ivs.any (fun p => decide (p.1 ≤ t) && decide (t ≤ p.2)))

/-! ### Calendar arithmetic and datetimes -/

/-- Gregorian leap-year test (as in Python `calendar`/`datetime`). -/
def isLeap (y : Int) : Bool :=
  y % 4 == 0 && (y % 100 != 0 || y % 400 == 0)

/-- Length of a month. -/
def daysInMonth (y : Int) (m : Nat) : Nat :=
  if m = 2 then (if isLeap y then 29 else 28)
  else if m = 4 ∨ m = 6 ∨ m = 9 ∨ m = 11 then 30
  else 31

/-- Days from 1970-01-01 to `y-m-d` in the proleptic Gregorian calendar
(the standard days-from-civil computation; all divisions are on
non-negative operands for the years `1..9999` Python datetimes allow). -/
def daysFromCivil (y : Int) (m d : Nat) : Int :=
  let y' : Int := if m ≤ 2 then y - 1 else y
  let era : Int := (if 0 ≤ y' then y' else y' - 399) / 400
  let yoe : Int := y' - era * 400
  let mp : Int := (Int.ofNat m + 9) % 12
  let doy : Int := (153 * mp + 2) / 5 + Int.ofNat d - 1
  let doe : Int := yoe * 365 + yoe / 4 - yoe / 100 + doy
  era * 146097 + doe - 719468

/-- Python `weekday()` (Monday = 0) of a civil date. -/
def weekdayOf (y : Int) (m d : Nat) : Nat :=
  (((daysFromCivil y m d % 7 + 7) % 7).toNat + 3) % 7

/-- Day-of-month of the last Sunday of a month. -/
def lastSunday (y : Int) (m : Nat) : Nat :=
  let last := daysInMonth y m
  last - ((weekdayOf y m last + 1) % 7)

/-- A naive Python datetime: wall-clock components without zone
(sub-second precision unused by the application is omitted). -/
structure NaiveDT where
  year : Int
  month : Nat
  dayv : Nat
  hour : Nat
  minute : Nat
  second : Nat
deriving Repr, DecidableEq

/-- Seconds from the epoch to a naive datetime read as if in UTC. -/
def naiveSeconds (n : NaiveDT) : Int :=
  daysFromCivil n.year n.month n.dayv * 86400
    + (Int.ofNat n.hour * 3600 + Int.ofNat n.minute * 60 + Int.ofNat n.second)

/-- Modelled from the ZoneInfo database entry for `Europe/Zurich`
(`APP_TZ`), which follows the EU rule in the years the application can
meet: the UTC offset, in minutes, that `replace(tzinfo=APP_TZ)` (fold 0)
attaches to a naive local datetime — +120 from the last Sunday of March
03:00 local until the last Sunday of October 03:00 local, +60
otherwise. -/
def zurichOffsetMin (n : NaiveDT) : Int :=
  let mar : NaiveDT := ⟨n.year, 3, lastSunday n.year 3, 3, 0, 0⟩
  let oct : NaiveDT := ⟨n.year, 10, lastSunday n.year 10, 3, 0, 0⟩
  if naiveSeconds mar ≤ naiveSeconds n ∧ naiveSeconds n < naiveSeconds oct then 120 else 60

/-- A parsed Python datetime: naive components plus the optional fixed UTC
offset (minutes) of its `tzinfo`. -/
structure PyDateTime where
  naive : NaiveDT
  offsetMin : Option Int
deriving Repr, DecidableEq

/-- Instant on the UTC timeline of an aware datetime; Python compares
aware datetimes by exactly this quantity. -/
def awareInstant (n : NaiveDT) (offMin : Int) : Int :=
  naiveSeconds n - offMin * 60

/-- Instant of a parsed timestamp after the evaluator's zone fix-up: a
timestamp lacking an offset is interpreted in `APP_TZ`
(`replace(tzinfo=APP_TZ)`), one carrying an offset keeps it. -/
def resolvedInstant (dt : PyDateTime) : Int :=
  match dt.offsetMin with
  | some o => awareInstant dt.naive o
  | none => awareInstant dt.naive (zurichOffsetMin dt.naive)

/-- Two-digit decimal field. -/
def digit2? : List Char → Option (Nat × List Char)
  | a :: b :: rest =>
    if a.isDigit ∧ b.isDigit then some (digitsVal [a, b], rest) else none
  | _ => none

/-- Trailing UTC-offset parser of an ISO-8601 string: nothing, `Z`, or
`±HH:MM`.  Returns the offset in minutes when present. -/
def parseIsoOffset : List Char → Option (Option Int)
  | [] => some none
  | ['Z'] => some (some 0)
  | sign :: o1 :: o2 :: ':' :: o3 :: o4 :: [] =>
    if (sign = '+' ∨ sign = '-') ∧ o1.isDigit ∧ o2.isDigit ∧ o3.isDigit ∧ o4.isDigit then
      let oh := digitsVal [o1, o2]
      let om := digitsVal [o3, o4]
      if oh ≤ 23 ∧ om ≤ 59 then
        some (some ((if sign = '-' then (-1 : Int) else 1) * (Int.ofNat (oh * 60 + om))))
      else none
    else none
  | _ => none

/-- Model of Python `datetime.fromisoformat` on the fragment of ISO-8601
strings the application meets: `YYYY-MM-DD`, optionally followed by a `T`
or space separator, `HH:MM`, optional `:SS`, and an optional `Z` or
`±HH:MM` offset.  (Fractional seconds and the other Python 3.11
extensions are outside the modelled fragment; no claim under study
evaluates the code on them.)  `none` models the raised `ValueError`. -/
def fromiso (s : String) : Option PyDateTime :=
  match s.data with
  | y1 :: y2 :: y3 :: y4 :: '-' :: m1 :: m2 :: '-' :: d1 :: d2 :: rest =>
    if (y1.isDigit ∧ y2.isDigit ∧ y3.isDigit ∧ y4.isDigit) ∧ (m1.isDigit ∧ m2.isDigit)
        ∧ (d1.isDigit ∧ d2.isDigit) then
      let y : Int := Int.ofNat (digitsVal [y1, y2, y3, y4])
      let mo := digitsVal [m1, m2]
      let dy := digitsVal [d1, d2]
      if 1 ≤ y ∧ 1 ≤ mo ∧ mo ≤ 12 ∧ 1 ≤ dy ∧ dy ≤ daysInMonth y mo then
        match rest with
        | [] => some ⟨⟨y, mo, dy, 0, 0, 0⟩, none⟩
        | sep :: t1 :: t2 :: ':' :: t3 :: t4 :: rest2 =>
          if (sep = 'T' ∨ sep = ' ') ∧ (t1.isDigit ∧ t2.isDigit) ∧ (t3.isDigit ∧ t4.isDigit) then
            let hh := digitsVal [t1, t2]
            let mi := digitsVal [t3, t4]
            if hh ≤ 23 ∧ mi ≤ 59 then
              match rest2 with
              | ':' :: s1 :: s2 :: rest3 =>
                if s1.isDigit ∧ s2.isDigit ∧ digitsVal [s1, s2] ≤ 59 then
                  match parseIsoOffset rest3 with
                  | some off => some ⟨⟨y, mo, dy, hh, mi, digitsVal [s1, s2]⟩, off⟩
                  | none => none
                else none
              | rest3 =>
                match parseIsoOffset rest3 with
                | some off => some ⟨⟨y, mo, dy, hh, mi, 0⟩, off⟩
                | none => none
            else none
          else none
        | _ => none
      else none
    else none
  | _ => none

/-! ### Window evaluator (src/app.py lines 152-165) -/

/-- Model of `within_open_now(start_dt_str, end_dt_str)` with the ambient
instant `now_local()` abstracted into its epoch-seconds instant
`nowInstant`.  A `none` cell models both a Python `None` (caught by the
falsy guard) and a pandas `NaN` (truthy, but `fromisoformat` then raises
`TypeError`, caught by the blanket `except`): both yield `False`.  An
unparsable string's `ValueError` is likewise caught, yielding `False`.
Parsed timestamps lacking an offset are interpreted in `APP_TZ`, and the
containment test `start <= now <= end` is inclusive on both ends. -/
def within_open_now (start_dt_str end_dt_str : Option String) (nowInstant : Int) : Bool :=
  match start_dt_str, end_dt_str with
  | some ss, some es =>
    if ss = "" ∨ es = "" then false
    else
      match fromiso ss, fromiso es with
      | some sdt, some edt =>
        decide (resolvedInstant sdt ≤ nowInstant) && decide (nowInstant ≤ resolvedInstant edt)
      | _, _ => false
  | _, _ => false

/-- Model of the event-creation gate (src/app.py lines 490-493): the form's
start and end datetimes are made `APP_TZ`-aware with `replace`, and the
record is created only when `end_dt < start_dt` is false (otherwise the
validation message is shown and nothing is stored).  Aware datetimes
compare by instant. -/
def event_creation_accepts (startN endN : NaiveDT) : Bool :=
  !(decide (awareInstant endN (zurichOffsetMin endN)
      < awareInstant startN (zurichOffsetMin startN)))

/-! ### Location predicate (pandas `str.contains`, a regex search) -/

/-- Token of a compiled regex pattern in the modelled fragment: a literal
character or the `.` metacharacter. -/
inductive RTok where
  | dot : RTok
  | lit (c : Char) : RTok
deriving Repr, DecidableEq

/-- Compilation of a pattern string in the modelled fragment, where every
character other than `.` denotes itself. -/
def parsePat (p : String) : List RTok :=
  p.data.map (fun c => if c = '.' then RTok.dot else RTok.lit c)

/-- Single-token match under `re.IGNORECASE` (ASCII folding): `.` matches
any character except a newline. -/
def tokMatch : RTok → Char → Bool
  | .dot, c => c != Char.ofNat 10
  | .lit a, c => a.toLower == c.toLower

/-- Match of a compiled pattern at the start of the input. -/
def matchHere : List RTok → List Char → Bool
  | [], _ => true
  | _ :: _, [] => false
  | t :: ts, c :: cs => tokMatch t c && matchHere ts cs

/-- Match of a compiled pattern at some position of the input. -/
def reSearch : List RTok → List Char → Bool
  | ts, [] => matchHere ts []
  | ts, c :: cs => matchHere ts (c :: cs) || reSearch ts cs

/-- Model of the location predicate
`Series.str.contains(q, case=False)`, i.e. of
`re.search(q, s, re.IGNORECASE) is not None` (pandas' default
`regex=True`), restricted to the fragment of patterns built from literal
characters and the `.` metacharacter — the only regex constructs the
claims under study exercise.  Case folding is the ASCII one. -/
def str_contains_ci (q s : String) : Bool := reSearch (parsePat q) s.data

/-- Literal (non-regex) substring occurrence. -/
def isSubstrList (p : List Char) : List Char → Bool
  | [] => p.isEmpty
  | c :: cs => p.isPrefixOf (c :: cs) || isSubstrList p cs

/-- Stated from the spec's words ("substring match (case-insensitive)
against the location field"), for comparison with the code's regex-based
predicate: the query occurs as a literal substring of the field under
case-insensitive (ASCII-folded) comparison. -/
def spec_substring_ci (q s : String) : Bool :=
  isSubstrList (q.data.map Char.toLower) (s.data.map Char.toLower)

/-! ### Records and the filter engine (src/app.py lines 250-278) -/

/-- The fixed parking enumeration `PARKING_OPTIONS`. -/
def PARKING_OPTIONS : List String := ["Facile", "Moyen", "Difficile"]

/-- A Place record as one row of the places DataFrame.  Every cell is
optional: `none` models a missing value (pandas `NaN`).  Typed cells
model the column contents the application itself writes (strings,
booleans, integers); rows hand-edited to other cell types are outside
the modelled fragment. -/
structure Place where
  idv : Option String := none
  name : Option String := none
  location : Option String := none
  rain_ok : Option Bool := none
  duration_min : Option Int := none
  parking : Option String := none
  satisfaction : Option Int := none
  hours_json : Option String := none
  image_path : Option String := none
  notes : Option String := none
deriving Repr, DecidableEq

/-- An Event record as one row of the events DataFrame. -/
structure Event where
  idv : Option String := none
  title : Option String := none
  location : Option String := none
  rain_ok : Option Bool := none
  duration_min : Option Int := none
  parking : Option String := none
  satisfaction : Option Int := none
  start_dt : Option String := none
  end_dt : Option String := none
  image_path : Option String := none
  notes : Option String := none
deriving Repr, DecidableEq

/-- Model of `apply_place_filters`, with `now_local()` abstracted into the
weekday `wd` and clock time `t`.  Masks are applied in source order:
location regex match on the `NaN → ""` filled column when the query is
non-empty; `rain_ok.astype(bool)` equality when the rain choice is
`Oui`/`Non` (Python `bool(nan)` is `True`, so a missing flag is coerced
to `True`); the inclusive duration range on the `NaN → 0` filled column,
always; parking equality when a real option is chosen (`NaN == v` is
`False` in pandas); the satisfaction minimum on the `NaN → 0` filled
column, always; and finally, only when requested, the open-now mask,
whose per-row `is_open_now` may raise (`Except.error`). -/
def apply_place_filters (df : List Place) (q : String) (pluie : String)
    (duree : Int × Int) (parking : String) (satis : Int) (open_now_flag : Bool)
    (wd : Fin 7) (t : ClockTime) : Except String (List Place) :=
  let out := df
  let out := if q ≠ "" then out.filter (fun r => str_contains_ci q (r.location.getD "")) else out
  let out := if pluie = "Oui" ∨ pluie = "Non" then
      out.filter (fun r => (r.rain_ok.getD true) == decide (pluie = "Oui"))
    else out
  let out := out.filter (fun r =>
      decide (duree.1 ≤ r.duration_min.getD 0) && decide (r.duration_min.getD 0 ≤ duree.2))
  let out := if parking ∈ PARKING_OPTIONS then
      out.filter (fun r => r.parking == some parking)
    else out
  let out := out.filter (fun r => decide (satis ≤ r.satisfaction.getD 0))
  if open_now_flag then do
    let mask ← out.mapM (fun r => is_open_now r.hours_json wd t)
    pure (((out.zip mask).filter (fun p => p.2)).map Prod.fst)
  else pure out

/-- Model of `apply_event_filters`, with `now_local()` abstracted into its
instant.  Identical to the Place version except that the open-now mask
delegates to `within_open_now`, which never raises (its whole body is
inside a `try`). -/
def apply_event_filters (df : List Event) (q : String) (pluie : String)
    (duree : Int × Int) (parking : String) (satis : Int) (open_now_flag : Bool)
    (nowInstant : Int) : List Event :=
  let out := df
  let out := if q ≠ "" then out.filter (fun r => str_contains_ci q (r.location.getD "")) else out
  let out := if pluie = "Oui" ∨ pluie = "Non" then
      out.filter (fun r => (r.rain_ok.getD true) == decide (pluie = "Oui"))
    else out
  let out := out.filter (fun r =>
      decide (duree.1 ≤ r.duration_min.getD 0) && decide (r.duration_min.getD 0 ≤ duree.2))
  let out := if parking ∈ PARKING_OPTIONS then
      out.filter (fun r => r.parking == some parking)
    else out
  let out := out.filter (fun r => decide (satis ≤ r.satisfaction.getD 0))
  if open_now_flag then
    out.filter (fun r => within_open_now r.start_dt r.end_dt nowInstant)
  else out

/-! ### Result ordering (src/app.py lines 417 and 520) -/

/-- Key comparison for a descending sort on an optional integer column
with missing values last (`sort_values(..., ascending=False)` with the
default `na_position="last"`). -/
def cmpSatDesc : Option Int → Option Int → Ordering
  | none, none => .eq
  | none, some _ => .gt
  | some _, none => .lt
  | some a, some b => compare b a

/-- Key comparison for an ascending sort on an optional column with
missing values last (`sort_values` with the default `ascending=True` and
`na_position="last"`). -/
def cmpAscNaLast {α : Type} [LinearOrder α] : Option α → Option α → Ordering
  | none, none => .eq
  | none, some _ => .gt
  | some _, none => .lt
  | some a, some b => compare a b

/-- Key comparison for an ascending sort on an optional integer column
with missing values last. -/
def cmpDurAsc : Option Int → Option Int → Ordering := cmpAscNaLast

/-- Key comparison for an ascending sort on an optional string column
with missing values last. -/
def cmpStrAsc : Option String → Option String → Ordering := cmpAscNaLast

/-- The boolean gate turning a key comparison into a sort relation: a
key ordered strictly after the other fails, anything else passes. -/
def gateGT : Ordering → Bool
  | .gt => false
  | _ => true

/-- The two-key place ordering of
`sort_values(by=["satisfaction", "duration_min"], ascending=[False, True])`:
satisfaction descending, ties broken by duration ascending, missing keys
last. -/
def placeSortLE (a b : Place) : Bool :=
  match cmpSatDesc a.satisfaction b.satisfaction with
  | .lt => true
  | .gt => false
  | .eq => gateGT (cmpDurAsc a.duration_min b.duration_min)

/-- Model of the displayed place order: some sort of the filtered rows by
`placeSortLE` (pandas gives no stable-sort guarantee beyond the keys, and
the spec promises none, so any realization is admissible; mergeSort is
this embedding's). -/
def sort_places (l : List Place) : List Place := l.mergeSort placeSortLE

/-- The one-key event ordering of `sort_values(by=["start_dt"])`: start
timestamp string ascending (code-point lexicographic, as Python `str`
comparison), missing keys last. -/
def eventSortLE (a b : Event) : Bool :=
  gateGT (cmpStrAsc a.start_dt b.start_dt)

/-- Model of the displayed event order. -/
def sort_events (l : List Event) : List Event := l.mergeSort eventSortLE

/-! ### The hours form serializer (src/app.py lines 107-110 and 344-378) -/

/-- Model of `time_to_str`: `None` renders as a dash, a time as the
zero-padded `"%H:%M"` (the widget's times always have valid hour and
minute, hence the `Fin` components). -/
def time_to_str : Option (Fin 24 × Fin 60) → String
  | none => "-"
  | some (h, m) =>
    String.mk [Char.ofNat (48 + h.val / 10), Char.ofNat (48 + h.val % 10), ':',
               Char.ofNat (48 + m.val / 10), Char.ofNat (48 + m.val % 10)]

/-- The per-day widget state inside `build_hours_input`: the day checkbox
and the two time inputs (which always hold a concrete valid time — the
widgets are seeded with defaults — so `time_to_str` never sees `None`
there). -/
structure DayForm where
  opened : Bool
  start_t : Fin 24 × Fin 60
  end_t : Fin 24 × Fin 60

/-- The dict value `build_hours_input` assembles for one day: open days
get one `{start, end}` interval from the two widgets, closed days an
empty interval list. -/
def dayVal (d : DayForm) : Json :=
  if d.opened then
    .obj [("open", .bool true),
          ("intervals", .arr [.obj [("start", .str (time_to_str (some d.start_t))),
                                    ("end", .str (time_to_str (some d.end_t)))]])]
  else .obj [("open", .bool false), ("intervals", .arr [])]

/-- The full weekly dict `build_hours_input` assembles, keyed by the seven
weekday labels in `WEEKDAYS_FR` order (Python dicts preserve insertion
order). -/
def hoursVal (f : Fin 7 → DayForm) : Json :=
  .obj ((List.finRange 7).map (fun i => (weekday_fr i, dayVal (f i))))

/-- Model of `build_hours_input` with the widget state abstracted into
`f`: the value returned to the caller is
`json.dumps(out, ensure_ascii=False)` of the weekly dict.  (The
`default_json` argument only seeds widget defaults and does not affect
which strings are producible.) -/
def build_hours_input (f : Fin 7 → DayForm) : String := dumps (hoursVal f)

/-! ## Claims -/

/-- A concrete schedule: open Monday 09:00-12:00. -/
def hoursLun : String :=
  "\x7b\"Lun\": \x7b\"open\": true, \"intervals\": [\x7b\"start\": \"09:00\", \"end\": \"12:00\"\x7d]\x7d\x7d"

/-- A concrete schedule with an inverted interval: Monday 13:00-09:00. -/
def hoursLunInv : String :=
  "\x7b\"Lun\": \x7b\"open\": true, \"intervals\": [\x7b\"start\": \"13:00\", \"end\": \"09:00\"\x7d]\x7d\x7d"

/-- C4: the Schedule Evaluator tests each interval of the resolved weekday
as a plain inclusive range on clock time: any interval `(s, e)` of the
resolved day with `s ≤ e` reports open when the instant's clock time
equals `s` and when it equals `e` (both boundaries inclusive); and when
every interval of the resolved day has `start > end`, the evaluator never
reports open for any instant on that weekday (no wrap-around to the next
day). -/
theorem claim_C4 (H : Option String) (wd : Fin 7) (ivs : List (ClockTime × ClockTime))
    (hivs : is_open_today_intervals H wd = .ok ivs) :
    (∀ s e, (s, e) ∈ ivs → s ≤ e →
        is_open_now H wd s = .ok true ∧ is_open_now H wd e = .ok true)
    ∧ ((∀ p, p ∈ ivs → p.2 < p.1) → ∀ t, is_open_now H wd t = .ok false) := by
  have hbase : ∀ t, is_open_now H wd t
      = .ok (ivs.any (fun p => decide (p.1 ≤ t) && decide (t ≤ p.2))) := by
    intro t
    simp only [is_open_now, hivs]
    rfl
  refine ⟨fun s e hmem hse => ⟨?_, ?_⟩, fun hinv t => ?_⟩
  · rw [hbase]
    congr 1
    exact List.any_eq_true.mpr ⟨(s, e), hmem, by simp [hse]⟩
  · rw [hbase]
    congr 1
    exact List.any_eq_true.mpr ⟨(s, e), hmem, by simp [hse]⟩
  · rw [hbase]
    congr 1
    refine List.any_eq_false.mpr (fun p hp => ?_)
    have h2 := hinv p hp
    rcases Nat.lt_or_ge t p.1 with h3 | h3
    · have h4 : ¬ (p.1 ≤ t) := Nat.not_le.mpr h3
      simp [h4]
    · have h4 : ¬ (t ≤ p.2) := Nat.not_le.mpr (lt_of_lt_of_le h2 h3)
      simp [h4]

/-- Witness for C4 at the concrete schedules `hoursLun` (09:00-12:00, both
boundaries open) and `hoursLunInv` (13:00-09:00, never open, sampled at
14:00). -/
theorem claim_C4_witness :
    is_open_now (some hoursLun) 0 32400 = .ok true
    ∧ is_open_now (some hoursLun) 0 43200 = .ok true
    ∧ is_open_now (some hoursLunInv) 0 50400 = .ok false :=
  ⟨((claim_C4 (some hoursLun) 0 [(32400, 43200)] (by rfl)).1 32400 43200
      (by decide) (by decide)).1,
   ((claim_C4 (some hoursLun) 0 [(32400, 43200)] (by rfl)).1 32400 43200
      (by decide) (by decide)).2,
   (claim_C4 (some hoursLunInv) 0 [(46800, 32400)] (by rfl)).2
      (by decide) 50400⟩

/-- C6: when the end timestamp denotes an earlier instant than the start
timestamp, the Window Evaluator reports "not within" for every instant;
the event-creation gate rejects such a pair (no record is created); and
an absent or unparsable timestamp string on either side yields "not
within" without raising. -/
theorem claim_C6 :
    (∀ (ss es : String) (sdt edt : PyDateTime), fromiso ss = some sdt →
        fromiso es = some edt → resolvedInstant edt < resolvedInstant sdt →
        ∀ now : Int, within_open_now (some ss) (some es) now = false)
    ∧ (∀ startN endN : NaiveDT,
        awareInstant endN (zurichOffsetMin endN) < awareInstant startN (zurichOffsetMin startN) →
        event_creation_accepts startN endN = false)
    ∧ (∀ (s : Option String) (now : Int),
        within_open_now none s now = false ∧ within_open_now s none now = false)
    ∧ (∀ (ss es : String) (now : Int), fromiso ss = none →
        within_open_now (some ss) (some es) now = false)
    ∧ (∀ (ss es : String) (now : Int), fromiso es = none →
        within_open_now (some ss) (some es) now = false) := by
  refine ⟨fun ss es sdt edt hs he hlt now => ?_, fun startN endN hlt => ?_,
    fun s now => ⟨by cases s <;> rfl, by cases s <;> rfl⟩,
    fun ss es now hs => ?_, fun ss es now he => ?_⟩
  · by_cases hemp : ss = "" ∨ es = ""
    · simp [within_open_now, hemp]
    · rcases le_or_lt (resolvedInstant sdt) now with h | h
      · have h2 : ¬ (now ≤ resolvedInstant edt) := not_le.mpr (lt_of_lt_of_le hlt h)
        simp [within_open_now, hemp, hs, he, h2]
      · have h2 : ¬ (resolvedInstant sdt ≤ now) := not_le.mpr h
        simp [within_open_now, hemp, hs, he, h2]
  · simp [event_creation_accepts, hlt]
  · by_cases hemp : ss = "" ∨ es = ""
    · simp [within_open_now, hemp]
    · simp [within_open_now, hemp, hs]
  · by_cases hemp : ss = "" ∨ es = ""
    · simp [within_open_now, hemp]
    · cases hfs : fromiso ss <;> simp [within_open_now, hemp, hfs, he]

/-- Witness for C6: a concrete inverted pair (start 18:00, end 09:00 the
same day, both `+02:00`), the creation gate on the matching naive pair,
and a concrete unparsable start string. -/
theorem claim_C6_witness :
    within_open_now (some "2025-07-01T18:00:00+02:00")
      (some "2025-07-01T09:00:00+02:00") 0 = false
    ∧ event_creation_accepts ⟨2025, 7, 1, 18, 0, 0⟩ ⟨2025, 7, 1, 9, 0, 0⟩ = false
    ∧ within_open_now (some "garbage") (some "2025-07-01T09:00:00+02:00") 0 = false :=
  ⟨claim_C6.1 "2025-07-01T18:00:00+02:00" "2025-07-01T09:00:00+02:00"
      ⟨⟨2025, 7, 1, 18, 0, 0⟩, some 120⟩ ⟨⟨2025, 7, 1, 9, 0, 0⟩, some 120⟩
      rfl rfl (by decide) 0,
   claim_C6.2.1 ⟨2025, 7, 1, 18, 0, 0⟩ ⟨2025, 7, 1, 9, 0, 0⟩ (by decide),
   claim_C6.2.2.2.1 "garbage" "2025-07-01T09:00:00+02:00" 0 rfl⟩

/-- C7: for a well-formed pair whose start instant is not after its end
instant, the Window Evaluator reports "within" at the instant exactly
equal to the (resolved) start and at the instant exactly equal to the
(resolved) end — both boundaries inclusive; and a parsed timestamp
lacking an explicit zone offset is resolved by attaching the fixed
target zone's offset (`APP_TZ`) before comparison. -/
theorem claim_C7 (ss es : String) (sdt edt : PyDateTime)
    (hs : fromiso ss = some sdt) (he : fromiso es = some edt)
    (hle : resolvedInstant sdt ≤ resolvedInstant edt) :
    within_open_now (some ss) (some es) (resolvedInstant sdt) = true
    ∧ within_open_now (some ss) (some es) (resolvedInstant edt) = true
    ∧ (sdt.offsetMin = none →
        resolvedInstant sdt = awareInstant sdt.naive (zurichOffsetMin sdt.naive)) := by
  have hemp : ¬ (ss = "" ∨ es = "") := by
    rintro (h | h)
    · rw [h] at hs
      exact Option.noConfusion ((rfl : fromiso "" = none).symm.trans hs)
    · rw [h] at he
      exact Option.noConfusion ((rfl : fromiso "" = none).symm.trans he)
  refine ⟨?_, ?_, fun hoff => ?_⟩
  · simp [within_open_now, hemp, hs, he, hle]
  · simp [within_open_now, hemp, hs, he, hle]
  · simp [resolvedInstant, hoff]

/-- Witness for C7 at a concrete aware pair: the window
09:00-18:00 `+02:00` on 2025-07-01 contains both its own boundaries. -/
theorem claim_C7_witness :
    within_open_now (some "2025-07-01T09:00:00+02:00")
      (some "2025-07-01T18:00:00+02:00")
      (resolvedInstant ⟨⟨2025, 7, 1, 9, 0, 0⟩, some 120⟩) = true
    ∧ within_open_now (some "2025-07-01T09:00:00+02:00")
      (some "2025-07-01T18:00:00+02:00")
      (resolvedInstant ⟨⟨2025, 7, 1, 18, 0, 0⟩, some 120⟩) = true :=
  ⟨(claim_C7 "2025-07-01T09:00:00+02:00" "2025-07-01T18:00:00+02:00"
      ⟨⟨2025, 7, 1, 9, 0, 0⟩, some 120⟩ ⟨⟨2025, 7, 1, 18, 0, 0⟩, some 120⟩
      rfl rfl (by decide)).1,
   (claim_C7 "2025-07-01T09:00:00+02:00" "2025-07-01T18:00:00+02:00"
      ⟨⟨2025, 7, 1, 9, 0, 0⟩, some 120⟩ ⟨⟨2025, 7, 1, 18, 0, 0⟩, some 120⟩
      rfl rfl (by decide)).2.1⟩

/-- Bind of a successful `Except` computation. -/
theorem ok_bind {α β : Type} (a : α) (f : α → Except String β) :
    (Except.ok a >>= f) = f a := rfl

/-- Bind of a failed `Except` computation. -/
theorem error_bind {α β : Type} (e : String) (f : α → Except String β) :
    ((Except.error e : Except String α) >>= f) = .error e := rfl

/-- Map over a successful `Except` computation. -/
theorem map_ok {α β : Type} (g : α → β) (a : α) :
    Except.map g (Except.ok a : Except String α) = .ok (g a) := rfl

/-- Map over a failed `Except` computation. -/
theorem map_error {α β : Type} (g : α → β) (e : String) :
    Except.map g (Except.error e : Except String α) = .error e := rfl

/-- Pure in the `Except` monad is `ok`. -/
theorem pure_eq_ok {α : Type} (a : α) : (pure a : Except String α) = .ok a := rfl

/-- A concrete schedule whose Monday has one malformed interval followed by
a well-formed one (14:00-18:00). -/
def hoursPartial : String :=
  "\x7b\"Lun\": \x7b\"open\": true, \"intervals\": [\x7b\"start\": \"xx\", \"end\": \"12:00\"\x7d, \x7b\"start\": \"14:00\", \"end\": \"18:00\"\x7d]\x7d\x7d"

/-- C10: within one day-configuration, an interval block whose start or
end fails to parse as a clock time (missing, or not an `H:MM` string) is
silently skipped — it contributes no interval — while the remaining
blocks of the same day are still evaluated: the day's interval traversal
over a block list containing the bad block equals the traversal with the
bad block removed, so a partially malformed day can still report open
through its well-formed intervals. -/
theorem claim_C10 (m : List (String × Json)) (sv ev : Json) (os oe : Option ClockTime)
    (hsv : dict_get (.obj m) "start" .null = .ok sv)
    (hev : dict_get (.obj m) "end" .null = .ok ev)
    (hps : parse_time_j sv = .ok os)
    (hpe : parse_time_j ev = .ok oe)
    (hbad : os = none ∨ oe = none) :
    interval_of_block (.obj m) = .ok none
    ∧ ∀ (l1 l2 : List Json),
        (traverse_blocks (l1 ++ Json.obj m :: l2)).map List.reduceOption
        = (traverse_blocks (l1 ++ l2)).map List.reduceOption := by
  have h1 : interval_of_block (.obj m) = .ok none := by
    simp only [interval_of_block, hsv, ok_bind, hev, hps, hpe]
    rcases hbad with h | h
    · subst h
      cases oe <;> rfl
    · subst h
      cases os <;> rfl
  refine ⟨h1, fun l1 l2 => ?_⟩
  induction l1 with
  | nil =>
    simp only [List.nil_append, traverse_blocks, h1, ok_bind]
    cases hl2 : traverse_blocks l2 with
    | error e => rfl
    | ok xs => simp [hl2, ok_bind, map_ok, List.reduceOption, List.filterMap_cons]
  | cons x xs ih =>
    simp only [List.cons_append, traverse_blocks]
    cases hx : interval_of_block x with
    | error e => rfl
    | ok v =>
      simp only [ok_bind]
      cases ha : traverse_blocks (xs ++ Json.obj m :: l2) with
      | error e =>
        cases hb : traverse_blocks (xs ++ l2) with
        | error e2 =>
          simp only [ha, hb, map_error] at ih ⊢
          cases ih
          rfl
        | ok b =>
          simp only [ha, hb, map_error, map_ok] at ih
          cases ih
      | ok a =>
        cases hb : traverse_blocks (xs ++ l2) with
        | error e2 =>
          simp only [ha, hb, map_error, map_ok] at ih
          cases ih
        | ok b =>
          simp only [ha, hb, map_ok, Except.ok.injEq] at ih
          simp only [List.reduceOption] at ih
          simp only [ha, hb, ok_bind, map_ok]
          cases v <;>
            simp [pure_eq_ok, map_ok, List.reduceOption, List.filterMap_cons, ih]

/-- Witness for C10: the block `start: "xx", end: "12:00"` is skipped,
the traversal with it present equals the traversal without it, and the
schedule `hoursPartial` (whose Monday holds that bad block next to a
well-formed 14:00-18:00 one) still reports open at Monday 15:00. -/
theorem claim_C10_witness :
    interval_of_block (.obj [("start", .str "xx"), ("end", .str "12:00")]) = .ok none
    ∧ ((traverse_blocks ([Json.obj [("start", .str "14:00"), ("end", .str "18:00")]]
          ++ Json.obj [("start", .str "xx"), ("end", .str "12:00")] :: [])).map
            List.reduceOption
        = (traverse_blocks ([Json.obj [("start", .str "14:00"), ("end", .str "18:00")]]
            ++ [])).map List.reduceOption)
    ∧ is_open_now (some hoursPartial) 0 54000 = .ok true :=
  ⟨(claim_C10 [("start", .str "xx"), ("end", .str "12:00")]
      (.str "xx") (.str "12:00") none (some 43200) rfl rfl rfl rfl (Or.inl rfl)).1,
   (claim_C10 [("start", .str "xx"), ("end", .str "12:00")]
      (.str "xx") (.str "12:00") none (some 43200) rfl rfl rfl rfl (Or.inl rfl)).2
      [Json.obj [("start", .str "14:00"), ("end", .str "18:00")]] [],
   rfl⟩

/-- The characters Python `re` treats as metacharacters. -/
def regexMetaChars : List Char :=
  ['.', '^', '$', '*', '+', '?', '\\', '[', ']', '(', ')', lbrace, rbrace, '|']

/-- A pattern without metacharacters compiles to its literal tokens. -/
theorem parsePat_no_meta (q : String) (h : ∀ c ∈ q.data, c ∉ regexMetaChars) :
    parsePat q = q.data.map RTok.lit := by
  refine List.map_congr_left (fun c hc => ?_)
  have hdot : c ≠ '.' := by
    intro hcd
    exact h c hc (by rw [hcd]; decide)
  simp [hdot]

/-- Matching a literal token list at the head is prefix comparison of the
case-folded strings. -/
theorem matchHere_lit (p : List Char) : ∀ s : List Char,
    matchHere (p.map RTok.lit) s
      = (p.map Char.toLower).isPrefixOf (s.map Char.toLower) := by
  induction p with
  | nil => intro s; simp [matchHere, List.isPrefixOf]
  | cons c cs ih =>
    intro s
    cases s with
    | nil => simp [matchHere, List.isPrefixOf]
    | cons d ds => simp [matchHere, tokMatch, List.isPrefixOf, ih]

/-- Searching a literal token list anywhere is substring occurrence of the
case-folded strings. -/
theorem reSearch_lit (p : List Char) : ∀ s : List Char,
    reSearch (p.map RTok.lit) s
      = isSubstrList (p.map Char.toLower) (s.map Char.toLower) := by
  intro s
  induction s with
  | nil =>
    cases p with
    | nil => simp [reSearch, matchHere, isSubstrList]
    | cons c cs => simp [reSearch, matchHere, isSubstrList]
  | cons d ds ih =>
    simp only [reSearch, List.map_cons, isSubstrList, matchHere_lit, List.map_cons] at *
    rw [ih]

/-- C3 (amended): the engine's location predicate is a case-insensitive
regular-expression search of the query in the location field (pandas
`str.contains` defaults to `regex=True`), not a literal substring test;
the two coincide exactly for queries containing no regex metacharacter.
For such metacharacter-free queries the predicate holds iff the query
occurs as a literal substring of the location under case-insensitive
comparison. -/
theorem claim_C3 (q : String) (hmeta : ∀ c ∈ q.data, c ∉ regexMetaChars) :
    ∀ s : String, str_contains_ci q s = spec_substring_ci q s := by
  intro s
  unfold str_contains_ci spec_substring_ci
  rw [parsePat_no_meta q hmeta, reSearch_lit]

/-- Witness for C3 at a concrete metacharacter-free query: `"zur"` against
`"Zurich"` (a match) and against `"Basel"` (no match). -/
theorem claim_C3_witness :
    str_contains_ci "zur" "Zurich" = spec_substring_ci "zur" "Zurich"
    ∧ str_contains_ci "zur" "Basel" = spec_substring_ci "zur" "Basel"
    ∧ str_contains_ci "zur" "Zurich" = true
    ∧ str_contains_ci "zur" "Basel" = false :=
  ⟨claim_C3 "zur" (by decide) "Zurich", claim_C3 "zur" (by decide) "Basel", rfl, rfl⟩

/-- A record located at `"a"`. -/
def placeA : Place := { location := some "a" }

/-- Counterexample for C3 as stated: with the query `"."` — which is not a
literal substring of `"a"` under any case folding — the engine keeps the
record located at `"a"`, because `.` is a regex metacharacter matching
any character. -/
theorem claim_C3_cex :
    apply_place_filters [placeA] "." "(Tous)" (0, 300) "(Tous)" 0 false 0 0 = .ok [placeA]
    ∧ spec_substring_ci "." "a" = false :=
  ⟨rfl, rfl⟩

/-- The wildcard parking selection is not a real parking option. -/
theorem tous_not_parking : ¬ ("(Tous)" ∈ PARKING_OPTIONS) := by decide

/-- A record whose every filtered attribute is missing except a location. -/
def placeMiss : Place := { location := some "x" }

/-- Counterexample for C2 as stated: `placeMiss` has a missing rain flag;
were a missing boolean coerced to `False`, the `Non` selection would keep
it (`False == False`) and the `Oui` selection would drop it.  The code
does the opposite: pandas `astype(bool)` maps `NaN` to `True`, so `Non`
drops the record and `Oui` keeps it. -/
theorem claim_C2_cex :
    apply_place_filters [placeMiss] "" "Non" (0, 300) "(Tous)" 0 false 0 0 = .ok []
    ∧ apply_place_filters [placeMiss] "" "Oui" (0, 300) "(Tous)" 0 false 0 0
      = .ok [placeMiss] :=
  ⟨rfl, rfl⟩

/-- C2 (amended): records with missing values in filtered attributes are
coerced rather than excluded outright or raising: a missing location
behaves as the empty string, a missing duration and a missing
satisfaction behave as 0 — but a missing rain-suitability flag behaves as
`True`, not `False` (pandas `astype(bool)` maps `NaN` to `True`).  All
results are `ok`, never an error. -/
theorem claim_C2 (r : Place) (h1 : r.rain_ok = none) (h2 : r.duration_min = none)
    (h3 : r.satisfaction = none) (h4 : r.location = none) (wd : Fin 7) (t : ClockTime) :
    (∀ q : String, apply_place_filters [r] q "(Tous)" (0, 300) "(Tous)" 0 false wd t
        = .ok (if str_contains_ci q "" then [r] else []))
    ∧ apply_place_filters [r] "" "Oui" (0, 300) "(Tous)" 0 false wd t = .ok [r]
    ∧ apply_place_filters [r] "" "Non" (0, 300) "(Tous)" 0 false wd t = .ok []
    ∧ (∀ a b : Int, apply_place_filters [r] "" "(Tous)" (a, b) "(Tous)" 0 false wd t
        = .ok (if a ≤ 0 ∧ 0 ≤ b then [r] else []))
    ∧ (∀ sat : Int, apply_place_filters [r] "" "(Tous)" (0, 300) "(Tous)" sat false wd t
        = .ok (if sat ≤ 0 then [r] else [])) := by
  refine ⟨fun q => ?_, ?_, ?_, fun a b => ?_, fun sat => ?_⟩
  · by_cases hq : q = ""
    · subst hq
      simp [apply_place_filters, h1, h2, h3, h4, pure_eq_ok, tous_not_parking, str_contains_ci, parsePat, reSearch,
        matchHere]
    · by_cases hc : str_contains_ci q ""
      · simp [apply_place_filters, h1, h2, h3, h4, pure_eq_ok, tous_not_parking, hq, hc, List.filter]
      · simp [apply_place_filters, h1, h2, h3, h4, pure_eq_ok, tous_not_parking, hq, hc, List.filter]
  · simp [apply_place_filters, h1, h2, h3, h4, pure_eq_ok, tous_not_parking, List.filter]
  · simp [apply_place_filters, h1, h2, h3, h4, pure_eq_ok, tous_not_parking, List.filter]
  · by_cases hab : a ≤ 0 ∧ 0 ≤ b
    · simp [apply_place_filters, h1, h2, h3, h4, pure_eq_ok, tous_not_parking, List.filter, hab.1, hab.2]
    · rcases not_and_or.mp hab with h | h
      · simp [apply_place_filters, h1, h2, h3, h4, pure_eq_ok, tous_not_parking, List.filter, h, hab]
      · simp [apply_place_filters, h1, h2, h3, h4, pure_eq_ok, tous_not_parking, List.filter, h, hab]
  · by_cases hs : sat ≤ 0
    · simp [apply_place_filters, h1, h2, h3, h4, pure_eq_ok, tous_not_parking, List.filter, hs]
    · simp [apply_place_filters, h1, h2, h3, h4, pure_eq_ok, tous_not_parking, List.filter, hs]

/-- Witness for C2 at the all-missing record: coercions observed at the
concrete parameter values of each conjunct. -/
theorem claim_C2_witness :
    apply_place_filters [({} : Place)] "x" "(Tous)" (0, 300) "(Tous)" 0 false 0 0
      = .ok (if str_contains_ci "x" "" then [({} : Place)] else [])
    ∧ apply_place_filters [({} : Place)] "" "Oui" (0, 300) "(Tous)" 0 false 0 0
      = .ok [({} : Place)]
    ∧ apply_place_filters [({} : Place)] "" "(Tous)" (0, 300) "(Tous)" 3 false 0 0
      = .ok (if (3 : Int) ≤ 0 then [({} : Place)] else []) :=
  ⟨(claim_C2 {} rfl rfl rfl rfl 0 0).1 "x",
   (claim_C2 {} rfl rfl rfl rfl 0 0).2.1,
   (claim_C2 {} rfl rfl rfl rfl 0 0).2.2.2.2 3⟩

/-- A record whose duration exceeds the duration slider's maximal extent
(the Events form allows durations up to 600). -/
def placeLong : Place := { location := some "x", duration_min := some 301 }

/-- Counterexample for C1 as stated: at all-default predicate parameters,
the engine drops `placeLong` (duration 301 falls outside the always-applied
default slider range 0-300), so membership is not preserved. -/
theorem claim_C1_cex :
    apply_place_filters [placeLong] "" "(Tous)" (0, 300) "(Tous)" 0 false 0 0 = .ok []
    ∧ ([] : List Place) ≠ [placeLong] :=
  ⟨rfl, fun h => List.noConfusion h⟩

/-- C1 (amended): with all predicate parameters at their wildcard/default
values, the Filter Engine preserves membership exactly on collections
whose records all have a coerced duration within the slider's default
extent [0, 300] and a coerced satisfaction ≥ 0 (the duration-range and
satisfaction-minimum filters are applied unconditionally); all records
either form satisfies this, except that the Events form allows durations
up to 600.  Under that hypothesis the output equals the input for both
Place and Event collections. -/
theorem claim_C1 (dfP : List Place) (dfE : List Event) (wd : Fin 7) (t : ClockTime)
    (now : Int)
    (hP : ∀ r ∈ dfP, 0 ≤ r.duration_min.getD 0 ∧ r.duration_min.getD 0 ≤ 300
        ∧ 0 ≤ r.satisfaction.getD 0)
    (hE : ∀ r ∈ dfE, 0 ≤ r.duration_min.getD 0 ∧ r.duration_min.getD 0 ≤ 300
        ∧ 0 ≤ r.satisfaction.getD 0) :
    apply_place_filters dfP "" "(Tous)" (0, 300) "(Tous)" 0 false wd t = .ok dfP
    ∧ apply_event_filters dfE "" "(Tous)" (0, 300) "(Tous)" 0 false now = dfE := by
  constructor
  · have hdur : ∀ r ∈ dfP,
        (decide ((0 : Int) ≤ r.duration_min.getD 0)
          && decide (r.duration_min.getD 0 ≤ (300 : Int))) = true := by
      intro r hr
      have h := hP r hr
      simp [h.1, h.2.1]
    have hsat : ∀ r ∈ dfP, (decide ((0 : Int) ≤ r.satisfaction.getD 0)) = true := by
      intro r hr
      simpa using (hP r hr).2.2
    simp [apply_place_filters, tous_not_parking, pure_eq_ok,
      List.filter_eq_self.mpr hdur, List.filter_eq_self.mpr hsat]
  · have hdur : ∀ r ∈ dfE,
        (decide ((0 : Int) ≤ r.duration_min.getD 0)
          && decide (r.duration_min.getD 0 ≤ (300 : Int))) = true := by
      intro r hr
      have h := hE r hr
      simp [h.1, h.2.1]
    have hsat : ∀ r ∈ dfE, (decide ((0 : Int) ≤ r.satisfaction.getD 0)) = true := by
      intro r hr
      simpa using (hE r hr).2.2
    simp [apply_event_filters, tous_not_parking,
      List.filter_eq_self.mpr hdur, List.filter_eq_self.mpr hsat]

/-- Witness for C1 (amended) at a one-record collection of each kind. -/
theorem claim_C1_witness :
    apply_place_filters [placeA] "" "(Tous)" (0, 300) "(Tous)" 0 false 0 0 = .ok [placeA]
    ∧ apply_event_filters [({} : Event)] "" "(Tous)" (0, 300) "(Tous)" 0 false 0
      = [({} : Event)] :=
  claim_C1 [placeA] [({} : Event)] 0 0 0 (by decide) (by decide)

/-- Counterexample for C5 as stated: `"[]"` is valid JSON but not the
documented weekly structure; the claim says the evaluator reports closed
and never raises, yet the code's `try` covers only `json.loads`, so
`data.get(...)` raises `AttributeError` on the decoded list, for every
instant. -/
theorem claim_C5_cex :
    is_open_now (some "[]") 0 0 = .error "AttributeError" := rfl

/-- C5 (amended): the Schedule Evaluator reports closed, with no error,
when the schedule cell is missing or the empty string, when the text is
not decodable JSON, and — provided the decoded value is a dict — when the
weekday's day-configuration is absent or falsy, when its open flag is
falsy or absent, and when its interval list is empty.  (A decodable value
whose top level is not a dict instead raises, as the counterexample
shows.) -/
theorem claim_C5 :
    (∀ (wd : Fin 7) (t : ClockTime),
        is_open_now none wd t = .ok false ∧ is_open_now (some "") wd t = .ok false)
    ∧ (∀ (s : String) (wd : Fin 7) (t : ClockTime), json_loads s = none →
        is_open_now (some s) wd t = .ok false)
    ∧ (∀ (s : String) (data day : Json) (wd : Fin 7) (t : ClockTime), s ≠ "" →
        json_loads s = some data →
        dict_get data (weekday_fr wd) (.obj []) = .ok day →
        truthy day = false →
        is_open_now (some s) wd t = .ok false)
    ∧ (∀ (s : String) (data day ov : Json) (wd : Fin 7) (t : ClockTime), s ≠ "" →
        json_loads s = some data →
        dict_get data (weekday_fr wd) (.obj []) = .ok day →
        truthy day = true →
        dict_get day "open" (.bool false) = .ok ov →
        truthy ov = false →
        is_open_now (some s) wd t = .ok false)
    ∧ (∀ (s : String) (data day ov : Json) (wd : Fin 7) (t : ClockTime), s ≠ "" →
        json_loads s = some data →
        dict_get data (weekday_fr wd) (.obj []) = .ok day →
        truthy day = true →
        dict_get day "open" (.bool false) = .ok ov →
        truthy ov = true →
        dict_get day "intervals" (.arr []) = .ok (.arr []) →
        is_open_now (some s) wd t = .ok false) := by
  refine ⟨fun wd t => ⟨rfl, rfl⟩,
    fun s wd t h => ?_,
    fun s data day wd t hs hload hday hfalsy => ?_,
    fun s data day ov wd t hs hload hday hd hopen hov => ?_,
    fun s data day ov wd t hs hload hday hd hopen hov hiv => ?_⟩
  · by_cases hs : s = ""
    · subst hs
      rfl
    · simp [is_open_now, is_open_today_intervals, hs, h, pure_eq_ok, ok_bind]
  · simp [is_open_now, is_open_today_intervals, hs, hload, hday, ok_bind, hfalsy,
      pure_eq_ok]
  · simp [is_open_now, is_open_today_intervals, hs, hload, hday, ok_bind, hd, hopen,
      hov, pure_eq_ok]
  · simp [is_open_now, is_open_today_intervals, hs, hload, hday, ok_bind, hd, hopen,
      hov, hiv, iter_elems, traverse_blocks, pure_eq_ok, List.reduceOption]

/-- Witness for C5 (amended): undecodable text, a day configured closed,
and a day flagged open with an empty interval list all report closed. -/
theorem claim_C5_witness :
    is_open_now (some "not json") 0 0 = .ok false
    ∧ is_open_now (some "\x7b\"Lun\": \x7b\"open\": false, \"intervals\": []\x7d\x7d") 0 0
      = .ok false
    ∧ is_open_now (some "\x7b\"Lun\": \x7b\"open\": true, \"intervals\": []\x7d\x7d") 0 0
      = .ok false :=
  ⟨claim_C5.2.1 "not json" 0 0 rfl,
   claim_C5.2.2.2.1 "\x7b\"Lun\": \x7b\"open\": false, \"intervals\": []\x7d\x7d"
     (.obj [("Lun", .obj [("open", .bool false), ("intervals", .arr [])])])
     (.obj [("open", .bool false), ("intervals", .arr [])]) (.bool false) 0 0
     (by decide) rfl rfl rfl rfl rfl,
   claim_C5.2.2.2.2 "\x7b\"Lun\": \x7b\"open\": true, \"intervals\": []\x7d\x7d"
     (.obj [("Lun", .obj [("open", .bool true), ("intervals", .arr [])])])
     (.obj [("open", .bool true), ("intervals", .arr [])]) (.bool true) 0 0
     (by decide) rfl rfl rfl rfl rfl rfl⟩

/-! ### Ordering lemmas for the displayed sorts -/

/-- The descending key comparison is `eq` exactly on equal keys. -/
theorem cmpSatDesc_eq_iff (x y : Option Int) : cmpSatDesc x y = .eq ↔ x = y := by
  cases x with
  | none => cases y <;> simp [cmpSatDesc]
  | some a =>
    cases y with
    | none => simp [cmpSatDesc]
    | some b =>
      show compare b a = .eq ↔ _
      rw [compare_eq_iff_eq]
      exact ⟨fun h => by rw [h], fun h => by cases h; rfl⟩

/-- Swapping the arguments of the descending key comparison swaps the
outcome. -/
theorem cmpSatDesc_swap (x y : Option Int) : cmpSatDesc y x = (cmpSatDesc x y).swap := by
  cases x with
  | none => cases y <;> rfl
  | some a =>
    cases y with
    | none => rfl
    | some b =>
      show compare a b = (compare b a).swap
      rcases lt_trichotomy a b with h | h | h
      · rw [compare_lt_iff_lt.2 h, compare_gt_iff_gt.2 h]
        rfl
      · subst h
        rw [compare_eq_iff_eq.2 rfl]
        rfl
      · rw [compare_gt_iff_gt.2 h, compare_lt_iff_lt.2 h]
        rfl

/-- Strict descending comparisons chain. -/
theorem cmpSatDesc_lt_trans {x y z : Option Int} (h1 : cmpSatDesc x y = .lt)
    (h2 : cmpSatDesc y z = .lt) : cmpSatDesc x z = .lt := by
  cases x with
  | none => cases y <;> exact Ordering.noConfusion h1
  | some a =>
    cases z with
    | none => rfl
    | some c =>
      cases y with
      | none => exact Ordering.noConfusion h2
      | some b =>
        have hb : b < a := compare_lt_iff_lt.1 h1
        have hc : c < b := compare_lt_iff_lt.1 h2
        exact compare_lt_iff_lt.2 (lt_trans hc hb)

/-- Non-strict ascending comparisons chain. -/
theorem cmpAscNaLast_le_trans {α : Type} [LinearOrder α] {x y z : Option α}
    (h1 : cmpAscNaLast x y ≠ .gt) (h2 : cmpAscNaLast y z ≠ .gt) :
    cmpAscNaLast x z ≠ .gt := by
  cases x with
  | none =>
    cases y with
    | some b => exact absurd rfl h1
    | none => exact h2
  | some a =>
    cases z with
    | none => exact fun h => Ordering.noConfusion h
    | some c =>
      cases y with
      | none => exact absurd rfl h2
      | some b =>
        have hab : a ≤ b := compare_le_iff_le.1 h1
        have hbc : b ≤ c := compare_le_iff_le.1 h2
        exact compare_le_iff_le.2 (le_trans hab hbc)

/-- The ascending key comparison is `eq` exactly on equal keys. -/
theorem cmpAscNaLast_eq_iff {α : Type} [LinearOrder α] (x y : Option α) :
    cmpAscNaLast x y = .eq ↔ x = y := by
  cases x with
  | none => cases y <;> simp [cmpAscNaLast]
  | some a =>
    cases y with
    | none => simp [cmpAscNaLast]
    | some b =>
      show compare a b = .eq ↔ _
      rw [compare_eq_iff_eq]
      exact ⟨fun h => by rw [h], fun h => by cases h; rfl⟩

/-- Swapping the arguments of the ascending key comparison swaps the
outcome. -/
theorem cmpAscNaLast_swap {α : Type} [LinearOrder α] (x y : Option α) :
    cmpAscNaLast y x = (cmpAscNaLast x y).swap := by
  cases x with
  | none => cases y <;> rfl
  | some a =>
    cases y with
    | none => rfl
    | some b =>
      show compare b a = (compare a b).swap
      rcases lt_trichotomy a b with h | h | h
      · rw [compare_lt_iff_lt.2 h, compare_gt_iff_gt.2 h]
        rfl
      · subst h
        rw [compare_eq_iff_eq.2 rfl]
        rfl
      · rw [compare_gt_iff_gt.2 h, compare_lt_iff_lt.2 h]
        rfl

/-- Swap lemma specialized to the duration key. -/
theorem cmpDurAsc_swap (x y : Option Int) : cmpDurAsc y x = (cmpDurAsc x y).swap :=
  cmpAscNaLast_swap x y

/-- Transitivity specialized to the duration key. -/
theorem cmpDurAsc_le_trans {x y z : Option Int} (h1 : cmpDurAsc x y ≠ .gt)
    (h2 : cmpDurAsc y z ≠ .gt) : cmpDurAsc x z ≠ .gt :=
  cmpAscNaLast_le_trans h1 h2

/-- Swap lemma specialized to the start-timestamp key. -/
theorem cmpStrAsc_swap (x y : Option String) : cmpStrAsc y x = (cmpStrAsc x y).swap :=
  cmpAscNaLast_swap x y

/-- Transitivity specialized to the start-timestamp key. -/
theorem cmpStrAsc_le_trans {x y z : Option String} (h1 : cmpStrAsc x y ≠ .gt)
    (h2 : cmpStrAsc y z ≠ .gt) : cmpStrAsc x z ≠ .gt :=
  cmpAscNaLast_le_trans h1 h2

/-- A non-`gt` outcome passes the boolean gate of the sort relations. -/
theorem gate_of_ne_gt {o : Ordering} (h : o ≠ .gt) : gateGT o = true := by
  cases o with
  | lt => rfl
  | eq => rfl
  | gt => exact absurd rfl h

/-- The boolean gate of the sort relations forces a non-`gt` outcome. -/
theorem ne_gt_of_gate {o : Ordering} (h : gateGT o = true) : o ≠ .gt := by
  cases o with
  | lt => exact fun hc => Ordering.noConfusion hc
  | eq => exact fun hc => Ordering.noConfusion hc
  | gt => exact Bool.noConfusion h

/-- The place ordering is transitive. -/
theorem placeSortLE_trans (a b c : Place) (hab : placeSortLE a b) (hbc : placeSortLE b c) :
    placeSortLE a c := by
  unfold placeSortLE at *
  cases h1 : cmpSatDesc a.satisfaction b.satisfaction with
  | gt =>
    rw [h1] at hab
    exact Bool.noConfusion hab
  | lt =>
    cases h2 : cmpSatDesc b.satisfaction c.satisfaction with
    | gt =>
      rw [h2] at hbc
      exact Bool.noConfusion hbc
    | lt => rw [cmpSatDesc_lt_trans h1 h2]
    | eq => rw [← (cmpSatDesc_eq_iff _ _).1 h2, h1]
  | eq =>
    have he := (cmpSatDesc_eq_iff _ _).1 h1
    cases h2 : cmpSatDesc b.satisfaction c.satisfaction with
    | gt =>
      rw [h2] at hbc
      exact Bool.noConfusion hbc
    | lt => rw [he, h2]
    | eq =>
      rw [h1] at hab
      rw [h2] at hbc
      rw [(cmpSatDesc_eq_iff _ _).2 (he.trans ((cmpSatDesc_eq_iff _ _).1 h2))]
      exact gate_of_ne_gt (cmpDurAsc_le_trans (ne_gt_of_gate hab) (ne_gt_of_gate hbc))

/-- The place ordering is total. -/
theorem placeSortLE_total (a b : Place) : placeSortLE a b || placeSortLE b a := by
  unfold placeSortLE
  rw [cmpSatDesc_swap a.satisfaction b.satisfaction,
    cmpDurAsc_swap a.duration_min b.duration_min]
  cases cmpSatDesc a.satisfaction b.satisfaction <;>
    cases cmpDurAsc a.duration_min b.duration_min <;> rfl

/-- The event ordering is transitive. -/
theorem eventSortLE_trans (a b c : Event) (hab : eventSortLE a b) (hbc : eventSortLE b c) :
    eventSortLE a c := by
  unfold eventSortLE at *
  exact gate_of_ne_gt (cmpStrAsc_le_trans (ne_gt_of_gate hab) (ne_gt_of_gate hbc))

/-- The event ordering is total. -/
theorem eventSortLE_total (a b : Event) : eventSortLE a b || eventSortLE b a := by
  unfold eventSortLE
  rw [cmpStrAsc_swap a.start_dt b.start_dt]
  cases cmpStrAsc a.start_dt b.start_dt <;> rfl

/-- C8: the displayed result order.  For every filtered collection, the
displayed Places are a permutation of it that is pairwise ordered by
descending satisfaction with ties broken by ascending duration, and the
displayed Events are a permutation pairwise ordered by ascending start
timestamp string; here stated for collections whose sort keys are all
present (pandas additionally places missing keys last, which the
`placeSortLE`/`eventSortLE` relations of this embedding also capture). -/
theorem claim_C8 (lp : List Place) (lev : List Event)
    (hp : ∀ r ∈ lp, r.satisfaction.isSome ∧ r.duration_min.isSome)
    (he : ∀ r ∈ lev, r.start_dt.isSome) :
    ((sort_places lp).Perm lp
      ∧ (sort_places lp).Pairwise (fun a b =>
          b.satisfaction.getD 0 ≤ a.satisfaction.getD 0
          ∧ (a.satisfaction = b.satisfaction →
              a.duration_min.getD 0 ≤ b.duration_min.getD 0)))
    ∧ ((sort_events lev).Perm lev
      ∧ (sort_events lev).Pairwise (fun a b =>
          a.start_dt.getD "" ≤ b.start_dt.getD "")) := by
  refine ⟨⟨List.mergeSort_perm lp placeSortLE, ?_⟩,
    ⟨List.mergeSort_perm lev eventSortLE, ?_⟩⟩
  · have hs := List.sorted_mergeSort
      (fun a b c => placeSortLE_trans a b c) (fun a b => placeSortLE_total a b) lp
    refine hs.imp_of_mem (fun {a b} ha hb hord => ?_)
    have hpa := hp a (List.mem_mergeSort.1 ha)
    have hpb := hp b (List.mem_mergeSort.1 hb)
    rcases Option.isSome_iff_exists.1 hpa.1 with ⟨sa, hsa⟩
    rcases Option.isSome_iff_exists.1 hpb.1 with ⟨sb, hsb⟩
    unfold placeSortLE at hord
    rw [hsa, hsb] at hord ⊢
    cases hc : cmpSatDesc (some sa) (some sb) with
    | gt =>
      rw [hc] at hord
      exact Bool.noConfusion hord
    | lt =>
      have hlt : sb < sa := compare_lt_iff_lt.1 hc
      refine ⟨by simpa using le_of_lt hlt, fun heq => ?_⟩
      rw [Option.some_inj.1 heq] at hlt
      exact absurd hlt (lt_irrefl _)
    | eq =>
      have heq : sb = sa := compare_eq_iff_eq.1 hc
      subst heq
      rw [hc] at hord
      have hd := ne_gt_of_gate hord
      refine ⟨le_refl _, fun _ => ?_⟩
      rcases Option.isSome_iff_exists.1 hpa.2 with ⟨da, hda⟩
      rcases Option.isSome_iff_exists.1 hpb.2 with ⟨db, hdb⟩
      rw [hda, hdb] at hd ⊢
      simpa using compare_le_iff_le.1 hd
  · have hs := List.sorted_mergeSort
      (fun a b c => eventSortLE_trans a b c) (fun a b => eventSortLE_total a b) lev
    refine hs.imp_of_mem (fun {a b} ha hb hord => ?_)
    have hea := he a (List.mem_mergeSort.1 ha)
    have heb := he b (List.mem_mergeSort.1 hb)
    rcases Option.isSome_iff_exists.1 hea with ⟨sa, hsa⟩
    rcases Option.isSome_iff_exists.1 heb with ⟨sb, hsb⟩
    unfold eventSortLE at hord
    rw [hsa, hsb] at hord ⊢
    have hd := ne_gt_of_gate hord
    simpa using compare_le_iff_le.1 hd

/-- Two fully-keyed places and one event for the ordering witness. -/
def pw1 : Place := { satisfaction := some 5, duration_min := some 30 }

/-- Second witness place. -/
def pw2 : Place := { satisfaction := some 4, duration_min := some 60 }

/-- Witness event. -/
def ew1 : Event := { start_dt := some "2025-07-01T09:00:00+02:00" }

/-- Witness for C8 at concrete two-place and one-event collections. -/
theorem claim_C8_witness :
    ((sort_places [pw1, pw2]).Perm [pw1, pw2]
      ∧ (sort_places [pw1, pw2]).Pairwise (fun a b =>
          b.satisfaction.getD 0 ≤ a.satisfaction.getD 0
          ∧ (a.satisfaction = b.satisfaction →
              a.duration_min.getD 0 ≤ b.duration_min.getD 0)))
    ∧ ((sort_events [ew1]).Perm [ew1]
      ∧ (sort_events [ew1]).Pairwise (fun a b =>
          a.start_dt.getD "" ≤ b.start_dt.getD "")) :=
  claim_C8 [pw1, pw2] [ew1] (by decide) (by decide)

/-! ### Parser completeness on the serializer image (for the round-trip) -/

/-- A character that serializes to itself inside a JSON string literal. -/
def PlainChar (c : Char) : Bool :=
  c != '"' && c != '\\' && decide (32 ≤ c.toNat)

/-- A string of plain characters. -/
def PlainStr (s : String) : Bool := s.data.all PlainChar

mutual

/-- Values on which the serializer and parser round-trip exactly: no
numbers (the application serializes none), and every string plain. -/
def WFJson : Json → Bool
  | .null => true
  | .bool _ => true
  | .num _ => false
  | .str s => PlainStr s
  | .arr l => WFList l
  | .obj kvs => WFMembers kvs

/-- Well-formedness of an item list. -/
def WFList : List Json → Bool
  | [] => true
  | v :: vs => WFJson v && WFList vs

/-- Well-formedness of a member list. -/
def WFMembers : List (String × Json) → Bool
  | [] => true
  | (k, v) :: kvs => PlainStr k && WFJson v && WFMembers kvs

end

/-- Plain characters are not escaped. -/
theorem escChar_plain {c : Char} (h : PlainChar c = true) : escChar c = [c] := by
  have h1 : c ≠ '"' := by
    intro hc
    rw [hc] at h
    exact Bool.noConfusion h
  have h2 : c ≠ '\\' := by
    intro hc
    rw [hc] at h
    exact Bool.noConfusion h
  have h3 : 32 ≤ c.toNat := by
    by_contra hc
    simp [PlainChar, hc] at h
  have hn : ¬ c.toNat < 32 := Nat.not_lt.mpr h3
  have h10 : c ≠ Char.ofNat 10 := by
    intro hc
    rw [hc] at h3
    exact absurd h3 (by decide)
  have h9 : c ≠ Char.ofNat 9 := by
    intro hc
    rw [hc] at h3
    exact absurd h3 (by decide)
  have h13 : c ≠ Char.ofNat 13 := by
    intro hc
    rw [hc] at h3
    exact absurd h3 (by decide)
  have h8 : c ≠ Char.ofNat 8 := by
    intro hc
    rw [hc] at h3
    exact absurd h3 (by decide)
  have h12 : c ≠ Char.ofNat 12 := by
    intro hc
    rw [hc] at h3
    exact absurd h3 (by decide)
  simp [escChar, h1, h2, h10, h9, h13, h8, h12, hn]

/-- Lists of plain characters escape to themselves. -/
theorem flatten_escChar_plain (l : List Char) (h : l.all PlainChar = true) :
    (l.map escChar).flatten = l := by
  induction l with
  | nil => rfl
  | cons c cs ih =>
    rw [List.all_cons, Bool.and_eq_true] at h
    simp only [List.map_cons, List.flatten_cons, escChar_plain h.1, ih h.2,
      List.singleton_append]

/-- A plain string serializes to itself between quotes. -/
theorem serStr_plain {s : String} (h : PlainStr s = true) :
    serStr s = '"' :: s.data ++ ['"'] := by
  unfold serStr
  rw [flatten_escChar_plain s.data h]
/-- Rebuilding a string from its characters. -/
theorem string_mk_data (s : String) : String.mk s.data = s := by
  cases s
  rfl

/-- The string-content parser inverts plain serialization. -/
theorem parseStrChars_plain (k : List Char) (h : k.all PlainChar = true) (rest : List Char) :
    parseStrChars (k ++ '"' :: rest) = some (k, rest) := by
  induction k with
  | nil =>
    rw [List.nil_append, parseStrChars.eq_def]
    rfl
  | cons c cs ih =>
    rw [List.all_cons, Bool.and_eq_true] at h
    have h1 : c ≠ '"' := by
      intro hc
      rw [hc] at h
      exact Bool.noConfusion h.1
    have h2 : c ≠ '\\' := by
      intro hc
      rw [hc] at h
      exact Bool.noConfusion h.1
    have h3 : ¬ c.toNat < 32 := by
      have hp : PlainChar c = true := h.1
      unfold PlainChar at hp
      rw [Bool.and_eq_true, Bool.and_eq_true] at hp
      exact Nat.not_lt.mpr (of_decide_eq_true hp.2)
    rw [List.cons_append, parseStrChars.eq_def]
    simp [h1, h2, h3, ih h.2]

/-- Dropping leading whitespace stops at a non-whitespace head. -/
theorem skipWs_cons_neg {c : Char} (h : isJsonWs c = false) (cs : List Char) :
    skipWs (c :: cs) = c :: cs := by
  simp [skipWs, List.dropWhile_cons, h]

/-- Dropping leading whitespace consumes a space. -/
theorem skipWs_cons_space (cs : List Char) : skipWs (' ' :: cs) = skipWs cs := by
  simp only [skipWs, List.dropWhile_cons, show isJsonWs ' ' = true from rfl, if_true]

/-- A leading space does not change the result of the value parser. -/
theorem parseVal_ws (n : Nat) (cs : List Char) :
    parseVal n (' ' :: cs) = parseVal n cs := by
  cases n with
  | zero => rfl
  | succ m =>
    simp only [parseVal, skipWs_cons_space]

/-- A leading space does not change the result of the members parser. -/
theorem parseMembers_ws (n : Nat) (cs : List Char) :
    parseMembers n (' ' :: cs) = parseMembers n cs := by
  cases n with
  | zero => rfl
  | succ m =>
    simp only [parseMembers, skipWs_cons_space]

/-- A leading space does not change the result of the items parser. -/
theorem parseItems_ws (n : Nat) (cs : List Char) :
    parseItems n (' ' :: cs) = parseItems n cs := by
  cases n with
  | zero => rfl
  | succ m =>
    simp only [parseItems, parseVal_ws]

/-- The serialization of a well-formed value begins with a value-opening
character: not whitespace, not a closing bracket, not a closing brace. -/
theorem ser_head (v : Json) (hwf : WFJson v = true) :
    ∃ c cs, ser v = c :: cs ∧ isJsonWs c = false ∧ c ≠ ']' ∧ c ≠ rbrace := by
  cases v with
  | null => exact ⟨'n', _, rfl, rfl, by decide, by decide⟩
  | bool b =>
    cases b with
    | true => exact ⟨'t', _, rfl, rfl, by decide, by decide⟩
    | false => exact ⟨'f', _, rfl, rfl, by decide, by decide⟩
  | num n => exact Bool.noConfusion hwf
  | str s => exact ⟨'"', _, rfl, rfl, by decide, by decide⟩
  | arr l =>
    cases l with
    | nil => exact ⟨'[', _, rfl, rfl, by decide, by decide⟩
    | cons v vs => exact ⟨'[', _, rfl, rfl, by decide, by decide⟩
  | obj kvs =>
    cases kvs with
    | nil => exact ⟨lbrace, _, rfl, rfl, by decide, by decide⟩
    | cons kv kvs =>
      cases kv with
      | mk k v => exact ⟨lbrace, _, rfl, rfl, by decide, by decide⟩

/-- The serialized members of a nonempty object, after the opening brace
up to and including the closing brace. -/
def membersBody : List (String × Json) → List Char
  | [] => []
  | (k, v) :: kvs => serStr k ++ ':' :: ' ' :: ser v ++ serMembersTail kvs

/-- The serialized items of a nonempty array, after the opening bracket up
to and including the closing bracket. -/
def itemsBody : List Json → List Char
  | [] => []
  | v :: vs => ser v ++ serItemsTail vs

/-- The serialized members tail is never empty. -/
theorem serMembersTail_ne_nil (kvs : List (String × Json)) :
    1 ≤ (serMembersTail kvs).length := by
  cases kvs with
  | nil => simp [serMembersTail]
  | cons kv kvs =>
    cases kv with
    | mk k v => simp [serMembersTail]

/-- The serialized items tail is never empty. -/
theorem serItemsTail_ne_nil (vs : List Json) : 1 ≤ (serItemsTail vs).length := by
  cases vs with
  | nil => simp [serItemsTail]
  | cons v vs => simp [serItemsTail]

/-- One unfolding of the value parser at an opening quote. -/
theorem parseVal_step_quote (n : Nat) (cs : List Char) :
    parseVal (n + 1) ('"' :: cs)
      = (parseStringRest cs).map (fun p => (Json.str p.1, p.2)) := rfl

/-- One unfolding of the value parser at an opening brace. -/
theorem parseVal_step_lbrace (n : Nat) (cs : List Char) :
    parseVal (n + 1) (lbrace :: cs)
      = (match skipWs cs with
        | c2 :: rest2 =>
          if c2 = rbrace then some (Json.obj [], rest2)
          else (parseMembers n (c2 :: rest2)).map (fun p => (Json.obj p.1, p.2))
        | [] => none) := rfl

/-- One unfolding of the value parser at an opening bracket. -/
theorem parseVal_step_lbrack (n : Nat) (cs : List Char) :
    parseVal (n + 1) ('[' :: cs)
      = (match skipWs cs with
        | c2 :: rest2 =>
          if c2 = ']' then some (Json.arr [], rest2)
          else (parseItems n (c2 :: rest2)).map (fun p => (Json.arr p.1, p.2))
        | [] => none) := rfl

/-- One unfolding of the members parser at an opening quote. -/
theorem parseMembers_step (n : Nat) (cs : List Char) :
    parseMembers (n + 1) ('"' :: cs)
      = (match parseStringRest cs with
        | some (k, r1) =>
          (match skipWs r1 with
          | ':' :: r2 =>
            (match parseVal n r2 with
            | some (v, r3) =>
              (match skipWs r3 with
              | ',' :: r4 => (parseMembers n r4).map (fun p => ((k, v) :: p.1, p.2))
              | c :: r4 => if c = rbrace then some ([(k, v)], r4) else none
              | [] => none)
            | none => none)
          | _ => none)
        | none => none) := rfl

/-- One unfolding of the items parser. -/
theorem parseItems_step (n : Nat) (cs : List Char) :
    parseItems (n + 1) cs
      = (match parseVal n cs with
        | some (v, r1) =>
          (match skipWs r1 with
          | ',' :: r2 => (parseItems n r2).map (fun p => (v :: p.1, p.2))
          | ']' :: r2 => some ([v], r2)
          | _ => none)
        | none => none) := rfl

mutual

/-- The value parser reads back every well-formed serialized value,
leaving the rest of the input untouched, whenever the fuel exceeds the
serialization's length. -/
theorem parseVal_ser (v : Json) (rest : List Char) (n : Nat) (hwf : WFJson v = true)
    (hn : (ser v).length < n) : parseVal n (ser v ++ rest) = some (v, rest) := by
  obtain ⟨n', rfl⟩ : ∃ m, n = m + 1 := ⟨n - 1, by omega⟩
  cases v with
  | null => rfl
  | bool b =>
    cases b with
    | true => rfl
    | false => rfl
  | num m => exact Bool.noConfusion hwf
  | str s =>
    have hps : PlainStr s = true := hwf
    have hshape : ser (.str s) ++ rest = '"' :: (s.data ++ '"' :: rest) := by
      show serStr s ++ rest = _
      rw [serStr_plain hps]
      simp
    rw [hshape, parseVal_step_quote]
    unfold parseStringRest
    rw [parseStrChars_plain s.data hps rest]
    simp [string_mk_data]
  | arr l =>
    cases l with
    | nil => rfl
    | cons w ws =>
      have hwfl : WFList (w :: ws) = true := hwf
      have hsplit : (WFJson w && WFList ws) = true := hwfl
      rw [Bool.and_eq_true] at hsplit
      have hshape : ser (.arr (w :: ws)) ++ rest
          = '[' :: (itemsBody (w :: ws) ++ rest) := by
        show ('[' :: (ser w ++ serItemsTail ws)) ++ rest = _
        simp [itemsBody]
      obtain ⟨c0, cs0, hc0, hc0ws, hc0rb, hc0rbr⟩ := ser_head w hsplit.1
      have hhead : itemsBody (w :: ws) ++ rest
          = c0 :: (cs0 ++ (serItemsTail ws ++ rest)) := by
        simp [itemsBody, hc0]
      have hfuel : (itemsBody (w :: ws)).length < n' := by
        have hl : (ser (.arr (w :: ws))).length = (itemsBody (w :: ws)).length + 1 := by
          show ('[' :: (ser w ++ serItemsTail ws)).length = _
          simp [itemsBody]
        omega
      rw [hshape, parseVal_step_lbrack]
      simp only [hhead, skipWs_cons_neg hc0ws, if_neg hc0rb]
      rw [← hhead, parseItems_ser (w :: ws) rest n' (by simp) hwfl hfuel]
      rfl
  | obj kvs =>
    cases kvs with
    | nil => rfl
    | cons kv kvs' =>
      obtain ⟨k, v0⟩ := kv
      have hwfm : WFMembers ((k, v0) :: kvs') = true := hwf
      have hsplit : (PlainStr k && WFJson v0 && WFMembers kvs') = true := hwfm
      rw [Bool.and_eq_true, Bool.and_eq_true] at hsplit
      have hk : PlainStr k = true := hsplit.1.1
      have hshape : ser (.obj ((k, v0) :: kvs')) ++ rest
          = lbrace :: (membersBody ((k, v0) :: kvs') ++ rest) := by
        show (lbrace :: (serStr k ++ ':' :: ' ' :: ser v0 ++ serMembersTail kvs')) ++ rest = _
        simp [membersBody]
      have hhead : membersBody ((k, v0) :: kvs') ++ rest
          = '"' :: (k.data ++ '"' :: (':' :: ' ' :: (ser v0 ++ (serMembersTail kvs' ++ rest)))) := by
        simp [membersBody, serStr_plain hk]
      have hfuel : (membersBody ((k, v0) :: kvs')).length < n' := by
        have hl : (ser (.obj ((k, v0) :: kvs'))).length
            = (membersBody ((k, v0) :: kvs')).length + 1 := by
          show (lbrace :: (serStr k ++ ':' :: ' ' :: ser v0 ++ serMembersTail kvs')).length = _
          simp [membersBody]
        omega
      rw [hshape, parseVal_step_lbrace]
      simp only [hhead, skipWs_cons_neg (show isJsonWs '"' = false from rfl),
        if_neg (show ¬ ('"' : Char) = rbrace from by decide)]
      rw [← hhead, parseMembers_ser ((k, v0) :: kvs') rest n' (by simp) hwfm hfuel]
      rfl

/-- The members parser reads back every nonempty well-formed serialized
member list up to and including the closing brace. -/
theorem parseMembers_ser (kvs : List (String × Json)) (rest : List Char) (n : Nat)
    (hne : kvs ≠ []) (hwf : WFMembers kvs = true)
    (hn : (membersBody kvs).length < n) :
    parseMembers n (membersBody kvs ++ rest) = some (kvs, rest) := by
  cases kvs with
  | nil => exact absurd rfl hne
  | cons kv kvs' =>
    obtain ⟨k, v⟩ := kv
    obtain ⟨n', rfl⟩ : ∃ m, n = m + 1 := ⟨n - 1, by omega⟩
    have hsplit : (PlainStr k && WFJson v && WFMembers kvs') = true := hwf
    rw [Bool.and_eq_true, Bool.and_eq_true] at hsplit
    have hk : PlainStr k = true := hsplit.1.1
    have hv : WFJson v = true := hsplit.1.2
    have hm : WFMembers kvs' = true := hsplit.2
    have hhead : membersBody ((k, v) :: kvs') ++ rest
        = '"' :: (k.data ++ '"' :: (':' :: ' ' :: (ser v ++ (serMembersTail kvs' ++ rest)))) := by
      simp [membersBody, serStr_plain hk]
    have hlen : (membersBody ((k, v) :: kvs')).length
        = k.data.length + 4 + (ser v).length + (serMembersTail kvs').length := by
      show (serStr k ++ ':' :: ' ' :: ser v ++ serMembersTail kvs').length = _
      rw [serStr_plain hk]
      simp only [List.cons_append, List.length_cons, List.length_append,
        List.length_singleton, List.length_nil]
      omega
    rw [hlen] at hn
    have hvfuel : (ser v).length < n' := by
      have h1 := serMembersTail_ne_nil kvs'
      omega
    rw [hhead, parseMembers_step]
    simp only [parseStringRest, parseStrChars_plain k.data hk, Option.map_some',
      string_mk_data, skipWs_cons_neg (show isJsonWs ':' = false from rfl),
      parseVal_ws, parseVal_ser v (serMembersTail kvs' ++ rest) n' hv hvfuel]
    cases kvs' with
    | nil => rfl
    | cons kv2 kvs2 =>
      obtain ⟨k2, v2⟩ := kv2
      have hstep : serMembersTail ((k2, v2) :: kvs2) ++ rest
          = ',' :: ' ' :: (membersBody ((k2, v2) :: kvs2) ++ rest) := by
        simp [serMembersTail, membersBody]
      have h1 : (serMembersTail ((k2, v2) :: kvs2)).length
          = 2 + (membersBody ((k2, v2) :: kvs2)).length := by
        show (',' :: ' ' :: (serStr k2 ++ ':' :: ' ' :: ser v2 ++ serMembersTail kvs2)).length = _
        simp [membersBody]
        omega
      rw [h1] at hn
      have hfuel2 : (membersBody ((k2, v2) :: kvs2)).length < n' := by omega
      simp only [hstep, skipWs_cons_neg (show isJsonWs ',' = false from rfl),
        parseMembers_ws,
        parseMembers_ser ((k2, v2) :: kvs2) rest n' (by simp) hm hfuel2,
        Option.map_some']

/-- The items parser reads back every nonempty well-formed serialized item
list up to and including the closing bracket. -/
theorem parseItems_ser (vs : List Json) (rest : List Char) (n : Nat)
    (hne : vs ≠ []) (hwf : WFList vs = true) (hn : (itemsBody vs).length < n) :
    parseItems n (itemsBody vs ++ rest) = some (vs, rest) := by
  cases vs with
  | nil => exact absurd rfl hne
  | cons v vs' =>
    obtain ⟨n', rfl⟩ : ∃ m, n = m + 1 := ⟨n - 1, by omega⟩
    have hsplit : (WFJson v && WFList vs') = true := hwf
    rw [Bool.and_eq_true] at hsplit
    have hlen : (itemsBody (v :: vs')).length
        = (ser v).length + (serItemsTail vs').length := by
      simp [itemsBody]
    have hshape : itemsBody (v :: vs') ++ rest
        = ser v ++ (serItemsTail vs' ++ rest) := by
      simp [itemsBody]
    rw [hlen] at hn
    have hvfuel : (ser v).length < n' := by
      have h1 := serItemsTail_ne_nil vs'
      omega
    rw [hshape, parseItems_step]
    simp only [parseVal_ser v (serItemsTail vs' ++ rest) n' hsplit.1 hvfuel]
    cases vs' with
    | nil => rfl
    | cons w ws =>
      have hstep : serItemsTail (w :: ws) ++ rest
          = ',' :: ' ' :: (itemsBody (w :: ws) ++ rest) := by
        simp [serItemsTail, itemsBody]
      have h2 : (serItemsTail (w :: ws)).length
          = 2 + (itemsBody (w :: ws)).length := by
        show (',' :: ' ' :: (ser w ++ serItemsTail ws)).length = _
        simp [itemsBody]
        omega
      rw [h2] at hn
      have hfuel2 : (itemsBody (w :: ws)).length < n' := by omega
      simp only [hstep, skipWs_cons_neg (show isJsonWs ',' = false from rfl),
        parseItems_ws,
        parseItems_ser (w :: ws) rest n' (by simp) hsplit.2 hfuel2,
        Option.map_some']

end

/-- Parsing the application's serialization of a well-formed value gives
back exactly that value. -/
theorem parse_dumps (v : Json) (hwf : WFJson v = true) :
    json_loads (dumps v) = some v := by
  unfold json_loads dumps
  have h := parseVal_ser v [] ((ser v).length + 1) hwf (by omega)
  rw [List.append_nil] at h
  simp only [show (String.mk (ser v)).data = ser v from rfl,
    show (String.mk (ser v)).length = (ser v).length from rfl, h]
  rfl

/-- Decimal digit characters are plain. -/
theorem plainChar_digit (n : Nat) (h : n ≤ 9) : PlainChar (Char.ofNat (48 + n)) = true := by
  interval_cases n <;> decide

/-- The clock strings the hours form emits are plain. -/
theorem time_plain : ∀ t : Fin 24 × Fin 60, PlainStr (time_to_str (some t)) = true := by
  rintro ⟨h, m⟩
  have hh := h.isLt
  have hm := m.isLt
  show ([Char.ofNat (48 + h.val / 10), Char.ofNat (48 + h.val % 10), ':',
    Char.ofNat (48 + m.val / 10), Char.ofNat (48 + m.val % 10)].all PlainChar) = true
  simp only [List.all_cons, List.all_nil, Bool.and_eq_true, and_true]
  exact ⟨plainChar_digit _ (by omega), plainChar_digit _ (by omega), by decide,
    plainChar_digit _ (by omega), plainChar_digit _ (by omega)⟩

/-- The per-day dict the hours form assembles is well-formed. -/
theorem wf_dayVal (d : DayForm) : WFJson (dayVal d) = true := by
  have h1 := time_plain d.start_t
  have h2 := time_plain d.end_t
  unfold dayVal
  cases hd : d.opened
  · simp [WFJson, WFMembers, WFList,
      show PlainStr "open" = true from by decide,
      show PlainStr "intervals" = true from by decide]
  · simp [WFJson, WFMembers, WFList, h1, h2,
      show PlainStr "open" = true from by decide,
      show PlainStr "intervals" = true from by decide,
      show PlainStr "start" = true from by decide,
      show PlainStr "end" = true from by decide]

/-- The weekly dict the hours form assembles is well-formed. -/
theorem wf_hoursVal (f : Fin 7 → DayForm) : WFJson (hoursVal f) = true := by
  show WFMembers ((List.finRange 7).map (fun i => (weekday_fr i, dayVal (f i)))) = true
  rw [show (List.finRange 7) = [0, 1, 2, 3, 4, 5, 6] from by decide]
  simp [WFMembers, wf_dayVal, weekday_fr,
    show PlainStr "Lun" = true from by decide,
    show PlainStr "Mar" = true from by decide,
    show PlainStr "Mer" = true from by decide,
    show PlainStr "Jeu" = true from by decide,
    show PlainStr "Ven" = true from by decide,
    show PlainStr "Sam" = true from by decide,
    show PlainStr "Dim" = true from by decide]

/-- C9: every weekly opening-hours value the application itself produces
round-trips byte-for-byte through serialize → parse → serialize: parsing
the form's serialized output recovers exactly the assembled dict, so
serializing again reproduces the identical string
(`build_hours_input f` is by definition `dumps (hoursVal f)`). -/
theorem claim_C9 (f : Fin 7 → DayForm) :
    json_loads (build_hours_input f) = some (hoursVal f)
    ∧ dumps (hoursVal f) = build_hours_input f :=
  ⟨parse_dumps (hoursVal f) (wf_hoursVal f), rfl⟩

end Sorties
